import Mathlib

/-!
Verification of the `kml` package (`src/kml/__init__.py`) of the kml-tools
repository: a shallow embedding in Lean 4 of the document tree the package
manipulates through BeautifulSoup (bs4), of the normalization pass `format`,
of the accessors `get_data` and `add`, of the coloring pipeline
`apply_color`, and of the spatial-index builder `spatial_index` with its
statistics helper `spatial_index_stats`.

Modelling conventions, fixed once for the whole file:

* A bs4 tree is modelled by `XNode`: an element (`Tag`) carries an optional
  namespace prefix, a tag name, attributes, and an ordered list of children;
  a string node (`NavigableString` / `CData`) carries a flag recording
  whether it is a `CData` object and its character content.  `CData` is a
  `str` subclass in bs4, so Python's `str(cdata)` is the *bare content*
  (the `<![CDATA[...]]>` wrapper is only added by `output_ready` during
  serialization); the embedding of `format` below reflects that.
* Python strings are Lean `String`s; `str.strip`/`str.isspace` are modelled
  on the ASCII whitespace characters (space, tab, newline, carriage return,
  vertical tab, form feed), which is what KML documents contain.
* Exceptions (`ValueError`, `KeyError`, `AttributeError`, `NameError`,
  `IndexError`, `ZeroDivisionError`, `StopIteration` turned into
  `ValueError`) are modelled by `Except String`; a raised exception aborts
  the call and no partially mutated document is returned (the spec tells
  callers to discard the document on failure, so the embedding does not
  track partial mutation).
* External collaborator modules that are not part of the repository
  (`spindex` grid-cell geometry, `color_graph`, `neighboring`,
  `point_in_polygon`, float parsing of coordinate text) are abstracted:
  the three `spindex` operations become function parameters returning
  `List Cell` (a Python `set` of cells with its iteration order), and
  coordinate tokens stay unparsed strings, since no claim below depends on
  the numeric values of coordinates.
-/

namespace Kml

/-! ## Python string primitives -/

/-- Whitespace characters recognised by Python `str.strip()` / `str.isspace()`
(restricted to ASCII, which is all that occurs in KML documents). -/
def isSpaceChar (c : Char) : Bool :=
  c = ' ' || c = '\t' || c = '\n' || c = '\r' || c = '\x0b' || c = '\x0c'

/-- Python `s.isspace()`: `s` is non-empty and every character is whitespace. -/
def pyIsSpace (s : String) : Bool :=
  !s.data.isEmpty && s.data.all isSpaceChar

/-- Leading- and trailing-whitespace removal on a character list. -/
def stripChars (l : List Char) : List Char :=
  (((l.dropWhile isSpaceChar).reverse).dropWhile isSpaceChar).reverse

/-- Python `s.strip()`. -/
def pyStrip (s : String) : String :=
  String.mk (stripChars s.data)

/-- Replace every occurrence of the character `c` in `l` by the list `r`
(char-level equivalent of Python `str.replace` with a one-character
pattern). -/
def replaceChar (c : Char) (r : List Char) (l : List Char) : List Char :=
  l.foldr (fun x acc => if x = c then r ++ acc else x :: acc) []

/-- The module-level helper `_as_html`: sequentially replaces `<`, then `>`,
then `&` by their HTML entities.  Because the replacements are sequential
and the first two introduce `&` characters, the final pass re-escapes them
(`<` ends up as `&amp;lt;`), contradicting the function's own docstring --
see the analysis of the CDATA-length comparison below. -/
def asHtml (s : String) : String :=
  String.mk (replaceChar '&' "&amp;".data
    (replaceChar '>' "&gt;".data
      (replaceChar '<' "&lt;".data s.data)))

/-- Correct simultaneous HTML-entity escaping of `<`, `>`, `&`.  Modelled
from the spec: this is the "HTML-entity-escaped serialization" the spec's
CDATA length comparison refers to (`a<b` becomes `a&lt;b`, 6 characters). -/
def specHtmlEscape (s : String) : String :=
  String.mk (s.data.foldr (fun x acc =>
    if x = '<' then "&lt;".data ++ acc
    else if x = '>' then "&gt;".data ++ acc
    else if x = '&' then "&amp;".data ++ acc
    else x :: acc) [])

/-- The test `any(c in e.string for c in REPLACE)` of `format`: does the
string contain `<`, `>` or `&`? -/
def containsReplace (s : String) : Bool :=
  s.data.any (fun c => c = '<' || c = '>' || c = '&')

/-- Modelled from the spec: the length of the literal-text-block ("CDATA")
serialization `<![CDATA[` ++ s ++ `]]>` compared with the length of the
HTML-entity-escaped serialization; the spec replaces the text node by a
CDATA block iff this condition holds (ties favour the block). -/
def specCDataCondition (s : String) : Bool :=
  decide (12 + s.length ≤ (specHtmlEscape s).length)

/-! Basic lemmas about the string primitives. -/

theorem dropWhile_head_false {p : Char → Bool} :
    ∀ (l : List Char) (c : Char) (rest : List Char),
      l.dropWhile p = c :: rest → p c = false := by
  intro l
  induction l with
  | nil => intro c rest h; simp [List.dropWhile] at h
  | cons x xs ih =>
      intro c rest h
      rw [List.dropWhile_cons] at h
      by_cases hx : p x
      · simp [hx] at h; exact ih c rest h
      · simp [hx] at h
        obtain ⟨h1, _⟩ := h
        simp [← h1]
        simpa using hx

theorem dropWhile_of_head_false {p : Char → Bool} (l : List Char)
    (h : ∀ c rest, l = c :: rest → p c = false) : l.dropWhile p = l := by
  cases l with
  | nil => simp
  | cons c rest => rw [List.dropWhile_cons]; simp [h c rest rfl]

theorem dropWhile_idem {p : Char → Bool} (l : List Char) :
    (l.dropWhile p).dropWhile p = l.dropWhile p := by
  apply dropWhile_of_head_false
  intro c rest h
  exact dropWhile_head_false l c rest h

/-- The head of a stripped character list is never whitespace. -/
theorem stripChars_head_false :
    ∀ (c : Char) (rest : List Char),
      ∀ l, stripChars l = c :: rest → isSpaceChar c = false := by
  intro c rest l h
  unfold stripChars at h
  set m := l.dropWhile isSpaceChar with hm
  have hsuff : (m.reverse.dropWhile isSpaceChar) <:+ m.reverse :=
    List.dropWhile_suffix _
  obtain ⟨pre, hpre⟩ := hsuff
  have hrev : (m.reverse.dropWhile isSpaceChar).reverse = c :: rest := h
  have hne : m.reverse.dropWhile isSpaceChar ≠ [] := by
    intro hnil; rw [hnil] at hrev; simp at hrev
  have hlast : (m.reverse.dropWhile isSpaceChar).getLast? = m.reverse.getLast? := by
    conv_rhs => rw [← hpre]
    exact (List.getLast?_append_of_ne_nil pre hne).symm
  have hlast2 : (m.reverse.dropWhile isSpaceChar).getLast? = some c := by
    have : (m.reverse.dropWhile isSpaceChar) = (c :: rest).reverse := by
      have := congrArg List.reverse hrev
      simpa using this
    rw [this]
    simp
  have hheadm : m.reverse.getLast? = m.head? := by
    cases m with
    | nil => simp
    | cons a as => simp [List.getLast?_reverse]
  rw [hlast2, hheadm] at hlast
  cases hm2 : m with
  | nil => rw [hm2] at hlast; simp at hlast
  | cons a as =>
      rw [hm2] at hlast
      simp at hlast
      have := dropWhile_head_false l a as (by rw [← hm, hm2])
      rwa [← hlast] at this

/-- Stripping is idempotent. -/
theorem stripChars_idem (l : List Char) : stripChars (stripChars l) = stripChars l := by
  have hdrop : (stripChars l).dropWhile isSpaceChar = stripChars l := by
    apply dropWhile_of_head_false
    intro c rest h
    exact stripChars_head_false c rest l h
  have hrev : (stripChars l).reverse = (l.dropWhile isSpaceChar).reverse.dropWhile isSpaceChar := by
    unfold stripChars; rw [List.reverse_reverse]
  calc stripChars (stripChars l)
      = (((stripChars l).dropWhile isSpaceChar).reverse.dropWhile isSpaceChar).reverse := rfl
    _ = ((stripChars l).reverse.dropWhile isSpaceChar).reverse := by rw [hdrop]
    _ = stripChars l := by rw [hrev, dropWhile_idem]; rfl

theorem pyStrip_idem (s : String) : pyStrip (pyStrip s) = pyStrip s := by
  unfold pyStrip
  rw [show (String.mk (stripChars s.data)).data = stripChars s.data from rfl,
    stripChars_idem]

theorem pyStrip_empty : pyStrip "" = "" := rfl

/-- A stripped string never satisfies Python `isspace` (if non-empty its
first character is not whitespace; if empty, `isspace` is `False`). -/
theorem pyIsSpace_pyStrip (s : String) : pyIsSpace (pyStrip s) = false := by
  unfold pyIsSpace pyStrip
  cases h : stripChars s.data with
  | nil => simp
  | cons c rest =>
      have hc := stripChars_head_false c rest s.data h
      simp [h, List.all_cons, hc]

/-! ## The bs4 document tree -/

/-- A node of a parsed KML document: either an element (`bs4.element.Tag`,
with its optional namespace prefix, tag name, attribute list with unique
keys, and ordered children) or a string node (`NavigableString`; the flag is
`true` for a `CData` object). -/
inductive XNode where
  | elem (pfx : Option String) (tag : String) (attrs : List (String × String)) (children : List XNode)
  | text (isCData : Bool) (s : String)

/-! ## The normalization pass `format` -/

/-- What the `Tag` branch of `format`'s traversal does to the sole text
child of an element `e` (bs4 `e.string` is truthy exactly when the single
string child is non-empty):

* `e.string = e.string.strip()` replaces it with a plain, stripped string;
* if the stripped text contains `<`, `>` or `&`, the code builds
  `cdata = CData(e.string)` and wraps iff
  `len(str(cdata)) <= len(_as_html(e.string))`.  Since `CData` is a `str`
  subclass without a `__str__` override, `str(cdata)` is the bare content,
  so the left side is just the content length (not the serialized
  `<![CDATA[...]]>` length). -/
def fmtSoleText (b : Bool) (s : String) : XNode :=
  if s = "" then .text b s
  else
    let s' := pyStrip s
    .text (containsReplace s' && decide (s'.length ≤ (asHtml s').length)) s'

mutual
/-- One node of `format`'s traversal, with phase 2 (applying the recorded
removals and replacements) fused in: a fused model is sound because the
traversal only schedules a string node for removal/replacement when that
node is not also replaced in place through `e.string`, and the replacement
strings produced through `e.string` are already stripped and non-`isspace`,
so the later phase never touches them.

Returns `none` when the node is extracted (a pure-whitespace string node).
For an element: the `kml` prefix is cleared; if the element has a single,
non-empty string child, that child is processed by `fmtSoleText`; otherwise
the children are processed recursively. -/
def fmtNode : XNode → Option XNode
  | .text b s =>
      if pyIsSpace s then none
      else if pyStrip s ≠ s then some (.text false (pyStrip s))
      else some (.text b s)
  | .elem p n a cs =>
      let p' := if p = some "kml" then none else p
      match cs with
      | [.text b s] => some (.elem p' n a [fmtSoleText b s])
      | _ => some (.elem p' n a (fmtList cs))

/-- `format`'s traversal over a list of sibling nodes. -/
def fmtList : List XNode → List XNode
  | [] => []
  | c :: rest =>
      match fmtNode c with
      | none => fmtList rest
      | some c' => c' :: fmtList rest
end

mutual
/-- The `no_empty` pass of `format`: the list of empty tags is materialized
before any removal, so an element that only becomes empty because all its
children are removed is kept (`spec 4.1 step 3`). -/
def remEmptyNode : XNode → Option XNode
  | .text b s => some (.text b s)
  | .elem p n a cs =>
      match cs with
      | [] => none
      | c :: rest => some (.elem p n a (remEmptyList (c :: rest)))

def remEmptyList : List XNode → List XNode
  | [] => []
  | c :: rest =>
      match remEmptyNode c with
      | none => remEmptyList rest
      | some c' => c' :: remEmptyList rest
end

/-- The `format` function of the package, acting on the whole soup object:
the soup root itself is not part of `soup.descendants`, so only its
children are processed; with `no_empty` set, one extra non-cascading
removal pass for empty tags runs afterwards. -/
def format (soup : XNode) (noEmpty : Bool) : XNode :=
  match soup with
  | .elem p n a cs =>
      let cs1 := fmtList cs
      .elem p n a (if noEmpty then remEmptyList cs1 else cs1)
  | t => t

-- sanity checks while developing the model
example : fmtNode (.elem (some "kml") "a" [] []) = some (.elem none "a" [] []) := rfl
example : fmtNode (.text false "  ") = none := rfl
example : fmtNode (.text true " x ") = some (.text false "x") := rfl
example :
    fmtNode (.elem none "a" [] [.text false " hello "]) =
      some (.elem none "a" [] [.text false "hello"]) := rfl
example :
    fmtNode (.elem none "a" [] [.text false "a<b"]) =
      some (.elem none "a" [] [.text true "a<b"]) := rfl

mutual
/-- Invariant checked by claim C6: every string node in the tree is
non-whitespace (in the Python `isspace` sense) and carries no leading or
trailing whitespace. -/
def textsOK : XNode → Bool
  | .text _ s => !pyIsSpace s && (pyStrip s == s)
  | .elem _ _ _ cs => textsOKList cs

def textsOKList : List XNode → Bool
  | [] => true
  | c :: rest => textsOK c && textsOKList rest
end

theorem fmtSoleText_textsOK (b : Bool) (s : String) :
    textsOK (fmtSoleText b s) = true := by
  unfold fmtSoleText
  by_cases h : s = ""
  · simp [h, textsOK, pyIsSpace, pyStrip, stripChars]
  · simp [h, textsOK, pyIsSpace_pyStrip, pyStrip_idem]

theorem fmtNode_textsOK (t : XNode) :
    ∀ c', fmtNode t = some c' → textsOK c' = true := by
  refine fmtNode.induct
    (fun t => ∀ c', fmtNode t = some c' → textsOK c' = true)
    (fun cs => textsOKList (fmtList cs) = true)
    ?_ ?_ ?_ ?_ ?_ ?_ ?_ ?_ t
  case refine_1 =>
    intro b s hsp c' h
    simp [fmtNode, hsp] at h
  case refine_2 =>
    intro b s hsp hst c' h
    simp [fmtNode, hsp, hst] at h
    rw [← h]
    simp [textsOK, pyIsSpace_pyStrip, pyStrip_idem]
  case refine_3 =>
    intro b s hsp hst c' h
    simp [fmtNode, hsp, hst] at h
    rw [← h]
    simp at hsp hst
    simp [textsOK, hsp, hst]
  case refine_4 =>
    intro p n a b s c' h
    simp only [fmtNode] at h
    rw [Option.some_inj] at h
    rw [← h]
    simp [textsOK, textsOKList, fmtSoleText_textsOK]
  case refine_5 =>
    intro p n a cs hns ih c' h
    simp only [fmtNode] at h
    split at h <;> (rw [Option.some_inj] at h; rw [← h]; simpa [textsOK] using ih)
  case refine_6 =>
    simp [fmtList, textsOKList]
  case refine_7 =>
    intro c rest hnone _ ihrest
    simpa [fmtList, hnone] using ihrest
  case refine_8 =>
    intro c rest c' hsome ihc ihrest
    simp only [fmtList, hsome]
    simp only [textsOKList]
    rw [ihc c' hsome, ihrest]
    rfl

theorem fmtList_textsOK : ∀ cs : List XNode, textsOKList (fmtList cs) = true := by
  intro cs
  induction cs with
  | nil => rfl
  | cons c rest ih =>
      simp only [fmtList]
      cases h : fmtNode c with
      | none => exact ih
      | some c' =>
          simp only [textsOKList]
          rw [fmtNode_textsOK c c' h, ih]
          rfl

/-! Machinery for the idempotence analysis (claim C5). -/

/-- Discriminator: is this node a string node? -/
def isTextN : XNode → Bool
  | .text _ _ => true
  | .elem _ _ _ _ => false

mutual
/-- Precondition of the amended idempotence claim: the tree contains no
pure-whitespace string node (in the Python `isspace` sense). -/
def noWsTexts : XNode → Bool
  | .text _ s => !pyIsSpace s
  | .elem _ _ _ cs => noWsList cs

def noWsList : List XNode → Bool
  | [] => true
  | c :: rest => noWsTexts c && noWsList rest
end

theorem fmtSoleText_is_text (b : Bool) (s : String) :
    ∃ b1 s1, fmtSoleText b s = .text b1 s1 := by
  unfold fmtSoleText
  by_cases h : s = "" <;> simp [h]

theorem fmtSoleText_stable (b : Bool) (s : String) (b1 : Bool) (s1 : String)
    (h : fmtSoleText b s = .text b1 s1) : fmtSoleText b1 s1 = .text b1 s1 := by
  unfold fmtSoleText at h ⊢
  by_cases h0 : s = ""
  · simp [h0] at h
    obtain ⟨hb, hs⟩ := h
    simp [← hs]
  · simp [h0] at h
    obtain ⟨hb, hs⟩ := h
    by_cases h1 : s1 = ""
    · simp [h1]
    · simp [h1, ← hs, pyStrip_idem, ← hb]

/-- A whitespace-free string strips to the empty string only if it was
already empty. -/
theorem pyStrip_ne_empty (s : String) (hns : pyIsSpace s = false) (h0 : s ≠ "") :
    pyStrip s ≠ "" := by
  intro hstrip
  unfold pyStrip at hstrip
  have hnil : stripChars s.data = [] := by
    have := congrArg String.data hstrip
    simpa using this
  unfold stripChars at hnil
  have h2 : (s.data.dropWhile isSpaceChar).reverse.dropWhile isSpaceChar = [] := by
    have := congrArg List.reverse hnil
    simpa using this
  rw [List.dropWhile_eq_nil_iff] at h2
  have hall : ∀ x ∈ s.data.dropWhile isSpaceChar, isSpaceChar x := by
    intro x hx
    exact h2 x (by simpa using hx)
  have hallfull : ∀ x ∈ s.data, isSpaceChar x := by
    intro x hx
    rcases List.mem_append.mp
      (by rw [List.takeWhile_append_dropWhile]; exact hx :
        x ∈ s.data.takeWhile isSpaceChar ++ s.data.dropWhile isSpaceChar) with h | h
    · exact List.mem_takeWhile_imp h
    · exact hall x h
  have : pyIsSpace s = true := by
    unfold pyIsSpace
    have hne : s.data ≠ [] := fun hh => h0 (by
      cases s with
      | mk d => simp at hh; simp [hh])
    simp [hne, List.all_eq_true]
    exact fun x hx => hallfull x hx
  rw [this] at hns
  exact Bool.noConfusion hns

/-- Unfolding lemma: the element case of `fmtNode` when the children are not
a single string node. -/
theorem fmtNode_elem_catchall (p : Option String) (n : String)
    (a : List (String × String)) (cs : List XNode)
    (hns : ∀ b s, cs = [XNode.text b s] → False) :
    fmtNode (.elem p n a cs) =
      some (.elem (if p = some "kml" then none else p) n a (fmtList cs)) := by
  cases cs with
  | nil => rfl
  | cons c rest =>
      cases c with
      | elem q m at2 cs2 => cases rest <;> rfl
      | text b s =>
          cases rest with
          | nil => exact (hns b s rfl).elim
          | cons d ds => rfl

/-- Unfolding lemma: the element case of `fmtNode` on a single string child. -/
theorem fmtNode_elem_sole (p : Option String) (n : String)
    (a : List (String × String)) (b : Bool) (s : String) :
    fmtNode (.elem p n a [.text b s]) =
      some (.elem (if p = some "kml" then none else p) n a [fmtSoleText b s]) := rfl

/-- Clearing the `kml` prefix is idempotent. -/
theorem pfx_stable (p : Option String) :
    (if (if p = some "kml" then none else p) = some "kml" then none
     else (if p = some "kml" then none else p)) = (if p = some "kml" then none else p) := by
  by_cases h : p = some "kml" <;> simp [h]

/-- Core stability result behind the amended idempotence claim: on a tree
with no pure-whitespace string nodes, the output of `format`'s traversal is
a fixed point of the traversal. -/
theorem fmtNode_stable (t : XNode) :
    noWsTexts t = true →
      ∃ c', fmtNode t = some c' ∧ fmtNode c' = some c' ∧ isTextN c' = isTextN t := by
  refine fmtNode.induct
    (fun t => noWsTexts t = true →
      ∃ c', fmtNode t = some c' ∧ fmtNode c' = some c' ∧ isTextN c' = isTextN t)
    (fun cs => noWsList cs = true →
      fmtList (fmtList cs) = fmtList cs ∧ (fmtList cs).map isTextN = cs.map isTextN)
    ?_ ?_ ?_ ?_ ?_ ?_ ?_ ?_ t
  case refine_1 =>
    intro b s hsp hnw
    simp [noWsTexts, hsp] at hnw
  case refine_2 =>
    intro b s hsp hst _
    refine ⟨.text false (pyStrip s), by simp [fmtNode, hsp, hst], ?_, rfl⟩
    simp [fmtNode, pyIsSpace_pyStrip, pyStrip_idem]
  case refine_3 =>
    intro b s hsp hst _
    refine ⟨.text b s, by simp [fmtNode, hsp, hst], ?_, rfl⟩
    simp [fmtNode, hsp, hst]
  case refine_4 =>
    intro p n a b s _
    refine ⟨.elem (if p = some "kml" then none else p) n a [fmtSoleText b s],
      fmtNode_elem_sole p n a b s, ?_, rfl⟩
    obtain ⟨b1, s1, hbs⟩ := fmtSoleText_is_text b s
    rw [hbs, fmtNode_elem_sole, pfx_stable, fmtSoleText_stable b s b1 s1 hbs]
  case refine_5 =>
    intro p n a cs hns ih hnw
    have hnl : noWsList cs = true := by simpa [noWsTexts] using hnw
    obtain ⟨hidem, hmap⟩ := ih hnl
    refine ⟨.elem (if p = some "kml" then none else p) n a (fmtList cs),
      fmtNode_elem_catchall p n a cs hns, ?_, rfl⟩
    have hns2 : ∀ b s, fmtList cs = [XNode.text b s] → False := by
      intro b s heq
      rw [heq] at hmap
      cases cs with
      | nil => simp at hmap
      | cons c rest =>
          cases rest with
          | cons d ds => simp [isTextN] at hmap
          | nil =>
              cases c with
              | text b0 s0 => exact hns b0 s0 rfl
              | elem q m at2 cs2 => simp [isTextN] at hmap
    rw [fmtNode_elem_catchall _ n a _ hns2, pfx_stable, hidem]
  case refine_6 =>
    intro _
    exact ⟨rfl, rfl⟩
  case refine_7 =>
    intro c rest hnone ihc _ hnw
    have hc : noWsTexts c = true := by
      simp [noWsList] at hnw
      exact hnw.1
    obtain ⟨c', h1, _, _⟩ := ihc hc
    rw [hnone] at h1
    exact Option.noConfusion h1
  case refine_8 =>
    intro c rest c' hsome ihc ihrest hnw
    simp [noWsList] at hnw
    obtain ⟨hc, hrest⟩ := hnw
    obtain ⟨hidem, hmap⟩ := ihrest hrest
    obtain ⟨c'', h1, h2, h3⟩ := ihc hc
    rw [hsome, Option.some_inj] at h1
    subst h1
    constructor
    · simp only [fmtList, hsome]
      simp only [fmtList, h2]
      rw [hidem]
    · simp only [fmtList, hsome, List.map_cons]
      rw [hmap, h3]

theorem fmtList_stable (cs : List XNode) (h : noWsList cs = true) :
    fmtList (fmtList cs) = fmtList cs := by
  have hcs : noWsTexts (.elem none "r" [] (XNode.elem none "q" [] [] :: cs)) = true := by
    simp [noWsTexts, noWsList, h]
  obtain ⟨c', h1, h2, _⟩ := fmtNode_stable _ hcs
  have hns : ∀ b s, (XNode.elem none "q" [] [] :: cs) = [XNode.text b s] → False := by
    intro b s hh
    cases cs <;> simp at hh
  rw [fmtNode_elem_catchall _ _ _ _ hns, Option.some_inj] at h1
  have hdq : fmtList (XNode.elem none "q" [] [] :: cs) =
      XNode.elem none "q" [] [] :: fmtList cs := rfl
  rw [hdq] at h1
  have hns2 : ∀ b s, (XNode.elem none "q" [] [] :: fmtList cs) = [XNode.text b s] → False := by
    intro b s hh
    cases hfl : fmtList cs <;> rw [hfl] at hh <;> simp at hh
  rw [← h1, fmtNode_elem_catchall _ _ _ _ hns2] at h2
  have hdq2 : fmtList (XNode.elem none "q" [] [] :: fmtList cs) =
      XNode.elem none "q" [] [] :: fmtList (fmtList cs) := rfl
  rw [hdq2] at h2
  simp only [Option.some_inj, XNode.elem.injEq, List.cons.injEq] at h2
  exact h2.2.2.2.2

theorem remEmptyNode_textsOK (t : XNode) :
    textsOK t = true → ∀ t', remEmptyNode t = some t' → textsOK t' = true := by
  refine remEmptyNode.induct
    (fun t => textsOK t = true → ∀ t', remEmptyNode t = some t' → textsOK t' = true)
    (fun cs => textsOKList cs = true → textsOKList (remEmptyList cs) = true)
    ?_ ?_ ?_ ?_ ?_ ?_ t
  case refine_1 =>
    intro b s h t' h2
    simp only [remEmptyNode, Option.some_inj] at h2
    rw [← h2]
    exact h
  case refine_2 =>
    intro p n a _ t' h2
    rw [show remEmptyNode (.elem p n a []) = none from rfl] at h2
    exact Option.noConfusion h2
  case refine_3 =>
    intro p n a c rest ih h t' h2
    simp only [remEmptyNode, Option.some_inj] at h2
    rw [← h2]
    simp only [textsOK] at h ⊢
    exact ih h
  case refine_4 =>
    intro h
    exact h
  case refine_5 =>
    intro c rest hnone _ ihrest h
    simp only [textsOKList] at h
    simp only [remEmptyList, hnone]
    exact ihrest (by
      rcases Bool.and_eq_true_iff.mp h with ⟨_, h2⟩
      exact h2)
  case refine_6 =>
    intro c rest c' hsome ihc ihrest h
    rcases Bool.and_eq_true_iff.mp (by simpa [textsOKList] using h) with ⟨h1, h2⟩
    simp only [remEmptyList, hsome, textsOKList]
    rw [ihc h1 c' hsome, ihrest h2]
    rfl

theorem remEmptyList_textsOK : ∀ cs : List XNode,
    textsOKList cs = true → textsOKList (remEmptyList cs) = true := by
  intro cs
  induction cs with
  | nil => intro h; exact h
  | cons c rest ih =>
      intro h
      rcases Bool.and_eq_true_iff.mp (by simpa [textsOKList] using h) with ⟨h1, h2⟩
      simp only [remEmptyList]
      cases hre : remEmptyNode c with
      | none => exact ih h2
      | some c' =>
          simp only [textsOKList]
          rw [remEmptyNode_textsOK c h1 c' hre, ih h2]
          rfl

/-- Claim C6 (confirmed): after `format` runs on any document (a soup whose
root is an element), every surviving string node is not pure whitespace (in
the Python `isspace` sense, i.e. non-empty and entirely whitespace) and has
no leading or trailing whitespace, for either value of the `no_empty`
flag. -/
theorem format_no_untrimmed_or_whitespace_texts (p : Option String) (n : String)
    (a : List (String × String)) (cs : List XNode) (noEmpty : Bool) :
    textsOK (format (.elem p n a cs) noEmpty) = true := by
  cases noEmpty with
  | false =>
      show textsOK (.elem p n a (fmtList cs)) = true
      simpa [textsOK] using fmtList_textsOK cs
  | true =>
      show textsOK (.elem p n a (remEmptyList (fmtList cs))) = true
      simp only [textsOK]
      exact remEmptyList_textsOK _ (fmtList_textsOK cs)

/-- Claim C5, amended (corrected): `format` with `no_empty=False` is
idempotent on every document containing no pure-whitespace string node.  (On
arbitrary documents it is not: removing a whitespace string can leave an
element with a sole string child whose CDATA handling only happens on the
second pass, and with `no_empty=True` the empty-tag removal can cascade on
the second pass; see the counterexample.) -/
theorem format_idempotent_of_noWs (soup : XNode) (h : noWsTexts soup = true) :
    format (format soup false) false = format soup false := by
  cases soup with
  | text b s => rfl
  | elem p n a cs =>
      have hl : noWsList cs = true := by simpa [noWsTexts] using h
      have e1 : format (.elem p n a cs) false = .elem p n a (fmtList cs) := rfl
      have e2 : format (.elem p n a (fmtList cs)) false
          = .elem p n a (fmtList (fmtList cs)) := rfl
      rw [e1, e2, fmtList_stable cs hl]

/-- Witness for the amended claim C5 at a concrete document. -/
theorem format_idempotent_of_noWs_witness :
    noWsTexts (.elem none "[document]" [] [.elem none "kml" []
      [.elem none "Document" [] [.elem none "name" [] [.text false " My Map "]]]]) = true
    ∧ format (format (.elem none "[document]" [] [.elem none "kml" []
        [.elem none "Document" [] [.elem none "name" [] [.text false " My Map "]]]]) false) false
      = format (.elem none "[document]" [] [.elem none "kml" []
        [.elem none "Document" [] [.elem none "name" [] [.text false " My Map "]]]]) false :=
  ⟨rfl, format_idempotent_of_noWs _ rfl⟩

mutual
/-- Observation used to distinguish trees: does any CData string node occur? -/
def anyCData : XNode → Bool
  | .text b _ => b
  | .elem _ _ _ cs => anyCDataList cs

def anyCDataList : List XNode → Bool
  | [] => false
  | c :: rest => anyCData c || anyCDataList rest
end

/-- A document on which `format` (with `no_empty=False`) is not idempotent:
the whitespace string is extracted on the first pass, which leaves `<a>`
with the sole string child `a&b`; only the second pass then wraps that child
in a CData block. -/
def exampleDocC5 : XNode :=
  .elem none "[document]" [] [.elem none "kml" []
    [.elem none "a" [] [.text false " ", .text false "a&b"]]]

/-- Counterexample to claim C5 as stated: applying `format` a second time
(with the same `no_empty=False` flag) changes the tree again. -/
theorem format_idempotence_counterexample :
    format (format exampleDocC5 false) false ≠ format exampleDocC5 false := by
  intro h
  have h2 := congrArg anyCData h
  rw [show anyCData (format (format exampleDocC5 false) false) = true from rfl] at h2
  rw [show anyCData (format exampleDocC5 false) = false from rfl] at h2
  exact Bool.noConfusion h2

/-- A document whose `<description>` has the sole string child `a<b`. -/
def exampleDocC4 : XNode :=
  .elem none "[document]" [] [.elem none "kml" []
    [.elem none "description" [] [.text false "a<b"]]]

/-- Claim C4 (code bug): the spec says the sole-text content `a<b` keeps the
escaped form because the CDATA serialization (15 characters) is longer than
the escaped serialization (6 characters), but the code wraps it in a CData
block: `len(str(cdata))` is the bare content length (3), because `CData` is
a `str` subclass, so the comparison `len(str(cdata)) <= len(_as_html(...))`
is vacuously true whenever a special character is present (and `_as_html`
additionally double-escapes, returning `a&amp;lt;b`).  The first conjunct
evaluates the code at the failing input; the second states that the spec's
length comparison would keep the escaped form. -/
theorem format_cdata_choice_bug :
    format exampleDocC4 false =
      .elem none "[document]" [] [.elem none "kml" []
        [.elem none "description" [] [.text true "a<b"]]]
    ∧ specCDataCondition "a<b" = false :=
  ⟨rfl, by decide⟩

/-! ## Tree search helpers (bs4 `find` / `find_all` over descendants) -/

mutual
/-- First descendant (preorder) of the nodes in the list satisfying `p`,
bs4 `Tag.find` restricted to a child list. -/
def findDescList (p : XNode → Bool) : List XNode → Option XNode
  | [] => none
  | c :: rest =>
      if p c then some c
      else
        match findDescNode p c with
        | some r => some r
        | none => findDescList p rest

/-- First descendant (preorder, excluding `t` itself) of `t` satisfying `p`:
bs4 `Tag.find` with a predicate. -/
def findDescNode (p : XNode → Bool) : XNode → Option XNode
  | .text _ _ => none
  | .elem _ _ _ cs => findDescList p cs
end

mutual
/-- All descendants (preorder) of the nodes in the list satisfying `p`. -/
def findAllList (p : XNode → Bool) : List XNode → List XNode
  | [] => []
  | c :: rest => (if p c then [c] else []) ++ findAllNode p c ++ findAllList p rest

/-- All descendants (preorder, excluding `t` itself) of `t` satisfying `p`:
bs4 `Tag.find_all` / `soup(...)`. -/
def findAllNode (p : XNode → Bool) : XNode → List XNode
  | .text _ _ => []
  | .elem _ _ _ cs => findAllList p cs
end

/-- Predicate: an element with the given tag name (a bs4 search by name
matches only `Tag`s). -/
def byTag (name : String) : XNode → Bool
  | .elem _ tg _ _ => tg = name
  | .text _ _ => false

/-- Does this node have the given tag name? -/
def tagIs (t : XNode) (name : String) : Bool :=
  match t with
  | .elem _ tg _ _ => tg = name
  | .text _ _ => false

/-- The bs4 `Tag.string` property: the contents of the unique string child,
found through a chain of single-child elements; `none` when the element does
not have exactly one child at some step. -/
def tagString : XNode → Option String
  | .elem _ _ _ [c] =>
      match c with
      | .text _ s => some s
      | .elem q m a2 cs2 => tagString (.elem q m a2 cs2)
  | _ => none

/-! ## The accessor `get_data` -/

/-- The `name` argument of `get_data`: either a Python `str` or a non-string
ordered collection of names (modelled as a list). -/
inductive NameArg where
  | str (s : String)
  | list (l : List String)

/-- The result of a successful `get_data` call: a single value for a string
name, a list of values for a collection of names. -/
inductive GDResult where
  | one (s : String)
  | many (l : List String)

/-- The search predicate of `get_data`: a `Data` or `SimpleData` element
whose `name` attribute equals the requested name. -/
def isDataElem (name : String) (t : XNode) : Bool :=
  match t with
  | .elem _ tg attrs _ =>
      (tg = "Data" || tg = "SimpleData") && (attrs.lookup "name" == some name)
  | .text _ _ => false

/-- The single-name branch of `get_data`: find the data element, read its
value (`val.value.string` for a `Data` element -- where `.value` is an
attribute-style `find` that yields `None`, hence an `AttributeError`, when
absent -- or `val.string` for a `SimpleData` element), and strip it. -/
def getDataStr (pm : XNode) (name : String) : Except String String :=
  match findDescNode (isDataElem name) pm with
  | none => .error ("ValueError: Data/SimpleData not found: name=" ++ name)
  | some val =>
      let target : Option XNode :=
        if tagIs val "Data" then findDescNode (byTag "value") val else some val
      match target with
      | none => .error "AttributeError: NoneType object has no attribute string"
      | some tgt =>
          match tagString tgt with
          | none => .error "AttributeError: NoneType object has no attribute strip"
          | some s => .ok (pyStrip s)

/-- The `get_data` function.  Its first line is
`if not isinstance(name, str) and hasattr(name, __iter__):` -- the attribute
argument `__iter__` is written without quotes, so for every non-string
`name` Python evaluates the undefined global name `__iter__` and raises
`NameError` before the intended recursive list comprehension on the next
line (dead code) can run. -/
def getData (pm : XNode) : NameArg → Except String GDResult
  | .str s => (getDataStr pm s).map .one
  | .list _ => .error "NameError: name __iter__ is not defined"

/-- A Placemark with two named data fields, `a` (a `Data` element) and `b`
(a `SimpleData` element). -/
def examplePm : XNode :=
  .elem none "Placemark" [] [.elem none "ExtendedData" []
    [.elem none "Data" [("name", "a")] [.elem none "value" [] [.text false " va "]],
     .elem none "SimpleData" [("name", "b")] [.text false "vb"]]]

/-- Claim C3 (code bug): the claim says `get_data` with a non-string ordered
collection of names returns one result per name by recursive application;
the code instead raises `NameError` on every non-string name, because the
guard `hasattr(name, __iter__)` references the undefined global `__iter__`
(the intended recursive branch on the next line is unreachable).  Both
individual names resolve fine, but the list call fails. -/
theorem get_data_list_name_bug :
    getData examplePm (.str "a") = .ok (.one "va")
    ∧ getData examplePm (.str "b") = .ok (.one "vb")
    ∧ getData examplePm (.list ["a", "b"]) = .error "NameError: name __iter__ is not defined" :=
  ⟨rfl, rfl, rfl⟩

/-! ## The accessor `add` -/

/-- The `add(tag, name)` helper for a list-valued `name`: append a chain of
new elements, each the child of the previous, and return the deepest one.
The model returns the updated anchor together with the path (list of child
indices, relative to the anchor) of the element the call returns; the empty
path denotes the anchor object itself.  (The `soup` parameter of the source
only determines the owning document of newly created tags and has no
structural effect, so it is not modelled; a single string name behaves as a
one-element list.) -/
def add : XNode → List String → XNode × List Nat
  | anchor, [] => (anchor, [])
  | .elem p n a cs, nm :: rest =>
      let child := add (.elem none nm [] []) rest
      (.elem p n a (cs ++ [child.1]), cs.length :: child.2)
  | .text b s, _ :: _ => (.text b s, [])

/-- Claim C10 (confirmed): `add` with an empty list of names creates and
appends nothing, leaves the tree unchanged, and returns the anchor element
itself (the empty path) rather than a newly created element. -/
theorem add_empty_list_returns_anchor (anchor : XNode) :
    add anchor [] = (anchor, []) := by
  cases anchor <;> rfl

/-! ## Python `sorted` and string comparison -/

/-- Lexicographic less-or-equal on character lists, by code point: the order
Python uses to compare strings. -/
def lexLe : List Char → List Char → Bool
  | [], _ => true
  | _ :: _, [] => false
  | a :: as, b :: bs => if a = b then lexLe as bs else decide (a < b)

/-- Python string comparison `a <= b`. -/
def strLeB (a b : String) : Bool := lexLe a.data b.data

theorem lexLe_total : ∀ as bs : List Char, (lexLe as bs || lexLe bs as) = true := by
  intro as
  induction as with
  | nil => intro bs; simp [lexLe]
  | cons a as ih =>
      intro bs
      cases bs with
      | nil => simp [lexLe]
      | cons b bs =>
          simp only [lexLe]
          by_cases hab : a = b
          · subst hab
            simp only [if_pos rfl]
            simpa using ih bs
          · have hba : ¬ b = a := fun h => hab h.symm
            rw [if_neg hab, if_neg hba]
            rcases lt_trichotomy a b with h | h | h
            · simp [h]
            · exact absurd h hab
            · have h2 : ¬ a < b := lt_asymm h
              simp [h, h2]

theorem lexLe_trans : ∀ as bs cs : List Char,
    lexLe as bs = true → lexLe bs cs = true → lexLe as cs = true := by
  intro as
  induction as with
  | nil => intro bs cs _ _; simp [lexLe]
  | cons a as ih =>
      intro bs cs h1 h2
      cases bs with
      | nil => simp [lexLe] at h1
      | cons b bs =>
          cases cs with
          | nil => simp [lexLe] at h2
          | cons c cs =>
              simp only [lexLe] at h1 h2 ⊢
              by_cases hab : a = b
              · subst hab
                simp only [if_pos rfl] at h1
                by_cases hbc : a = c
                · subst hbc
                  simp only [if_pos rfl] at h2 ⊢
                  exact ih bs cs h1 h2
                · rw [if_neg hbc] at h2 ⊢
                  exact h2
              · rw [if_neg hab] at h1
                by_cases hbc : b = c
                · subst hbc
                  rw [if_neg hab]
                  exact h1
                · rw [if_neg hbc] at h2
                  have hac : a < c := lt_trans (of_decide_eq_true h1) (of_decide_eq_true h2)
                  have hne : a ≠ c := ne_of_lt hac
                  rw [if_neg hne]
                  exact decide_eq_true hac

theorem lexLe_antisymm : ∀ as bs : List Char,
    lexLe as bs = true → lexLe bs as = true → as = bs := by
  intro as
  induction as with
  | nil =>
      intro bs _ h2
      cases bs with
      | nil => rfl
      | cons b bs => simp [lexLe] at h2
  | cons a as ih =>
      intro bs h1 h2
      cases bs with
      | nil => simp [lexLe] at h1
      | cons b bs =>
          simp only [lexLe] at h1 h2
          by_cases hab : a = b
          · subst hab
            simp only [if_pos rfl] at h1 h2
            rw [ih bs h1 h2]
          · have hba : ¬ b = a := fun h => hab h.symm
            rw [if_neg hab] at h1
            rw [if_neg hba] at h2
            exact absurd (lt_trans (of_decide_eq_true h1) (of_decide_eq_true h2))
              (lt_irrefl a)

theorem strLeB_total (a b : String) : (strLeB a b || strLeB b a) = true :=
  lexLe_total a.data b.data

theorem strLeB_trans (a b c : String) :
    strLeB a b = true → strLeB b c = true → strLeB a c = true :=
  lexLe_trans a.data b.data c.data

theorem strLeB_antisymm (a b : String) :
    strLeB a b = true → strLeB b a = true → a = b := by
  intro h1 h2
  cases a with
  | mk da =>
      cases b with
      | mk db => rw [lexLe_antisymm da db h1 h2]

/-- One insertion step of insertion sort. -/
def insertLe {α : Type} (le : α → α → Bool) (x : α) : List α → List α
  | [] => [x]
  | y :: ys => if le x y then x :: y :: ys else y :: insertLe le x ys

/-- Python `sorted`, modelled as insertion sort (any stable comparison sort
produces the same list for a total order, which is all the code relies
on). -/
def pySorted {α : Type} (le : α → α → Bool) (l : List α) : List α :=
  l.foldr (insertLe le) []

theorem insertLe_perm {α : Type} (le : α → α → Bool) (x : α) :
    ∀ l : List α, List.Perm (insertLe le x l) (x :: l) := by
  intro l
  induction l with
  | nil => simp [insertLe]
  | cons y ys ih =>
      simp only [insertLe]
      by_cases h : le x y
      · simp [h]
      · simp only [h, if_neg, Bool.false_eq_true, not_false_iff]
        exact ((ih.cons y).trans (List.Perm.swap x y ys))

theorem pySorted_perm {α : Type} (le : α → α → Bool) :
    ∀ l : List α, List.Perm (pySorted le l) l := by
  intro l
  induction l with
  | nil => simp [pySorted]
  | cons a l ih =>
      have : pySorted le (a :: l) = insertLe le a (pySorted le l) := rfl
      rw [this]
      exact (insertLe_perm le a (pySorted le l)).trans (ih.cons a)

theorem mem_insertLe {α : Type} (le : α → α → Bool) (x a : α) (l : List α) :
    a ∈ insertLe le x l ↔ a = x ∨ a ∈ l :=
  by simpa using (insertLe_perm le x l).mem_iff

theorem insertLe_sorted {α : Type} (le : α → α → Bool)
    (htot : ∀ a b, (le a b || le b a) = true)
    (htrans : ∀ a b c, le a b = true → le b c = true → le a c = true)
    (x : α) (l : List α) (h : List.Sorted (fun a b => le a b = true) l) :
    List.Sorted (fun a b => le a b = true) (insertLe le x l) := by
  induction l with
  | nil => simp [insertLe]
  | cons y ys ih =>
      rw [List.sorted_cons] at h
      obtain ⟨hy, hys⟩ := h
      simp only [insertLe]
      by_cases hxy : le x y
      · simp only [hxy, if_pos]
        rw [List.sorted_cons]
        refine ⟨?_, ?_⟩
        · intro b hb
          rcases List.mem_cons.mp hb with hb | hb
          · rw [hb]; exact hxy
          · exact htrans x y b hxy (hy b hb)
        · rw [List.sorted_cons]; exact ⟨hy, hys⟩
      · have hyx : le y x = true := by
          have := htot x y
          rcases Bool.or_eq_true_iff.mp this with h | h
          · exact absurd h hxy
          · exact h
        simp only [hxy, if_neg, Bool.false_eq_true, not_false_iff]
        rw [List.sorted_cons]
        refine ⟨?_, ih hys⟩
        intro b hb
        rcases (mem_insertLe le x b ys).mp hb with hb | hb
        · rw [hb]; exact hyx
        · exact hy b hb

theorem pySorted_sorted {α : Type} (le : α → α → Bool)
    (htot : ∀ a b, (le a b || le b a) = true)
    (htrans : ∀ a b c, le a b = true → le b c = true → le a c = true)
    (l : List α) : List.Sorted (fun a b => le a b = true) (pySorted le l) := by
  induction l with
  | nil => simp [pySorted]
  | cons a l ih => exact insertLe_sorted le htot htrans a (pySorted le l) ih

/-! ## The coloring pipeline `apply_color` -/

/-- The loop `for i in range(len(pms)): coloring[i]`: look every placemark
index up in the coloring dict, aborting with `KeyError` at the first missing
index. -/
def colorsOf (coloring : Nat → Option Nat) : List Nat → Except String (List Nat)
  | [] => .ok []
  | i :: rest =>
      match coloring i with
      | none => .error ("KeyError: " ++ Nat.repr i)
      | some c => (colorsOf coloring rest).map (fun cs => c :: cs)

/-- The style id `color{c}` referenced by a placemark colored `c` (the
`styleUrl` text without its leading `#`). -/
def idsOf (colors : List Nat) : List String :=
  colors.map (fun c => "color" ++ Nat.repr c)

/-- The order in which `apply_color` creates the new style elements:
`sorted(ids)` over the set of used style ids, i.e. the lexicographically
ascending list of the distinct ids. -/
def styleOrder (doc : XNode) (coloring : Nat → Option Nat) : Except String (List String) :=
  (colorsOf coloring (List.range (findAllNode (byTag "Placemark") doc).length)).map
    (fun colors => pySorted strLeB (idsOf colors).dedup)

/-- Replace the children of the first `styleUrl` descendant (preorder) found
in the list with the single string `url` (bs4 `.string = url` setter);
`none` when no `styleUrl` descendant exists. -/
def setSUList (url : String) : List XNode → Option (List XNode)
  | [] => none
  | .elem p n a cs :: rest =>
      if n = "styleUrl" then some (.elem p n a [.text false url] :: rest)
      else
        match setSUList url cs with
        | some cs' => some (.elem p n a cs' :: rest)
        | none =>
            match setSUList url rest with
            | some rest' => some (.elem p n a cs :: rest')
            | none => none
  | .text b s :: rest =>
      match setSUList url rest with
      | some rest' => some (.text b s :: rest')
      | none => none

/-- The statement `(pm.styleUrl or add(pm, 'styleUrl')).string = url`: set
the text of the placemark's first `styleUrl` descendant, appending a fresh
`styleUrl` child (as last child) when there is none. -/
def setStyleUrl (pm : XNode) (url : String) : XNode :=
  match pm with
  | .elem p n a cs =>
      match setSUList url cs with
      | some cs' => .elem p n a cs'
      | none => .elem p n a (cs ++ [.elem none "styleUrl" [] [.text false url]])
  | t => t

mutual
/-- Paths (child-index lists) of all `Placemark` elements in the subtree, in
preorder; `[]` denotes the node itself. -/
def pmPathsNode : XNode → List (List Nat)
  | .text _ _ => []
  | .elem _ n _ cs => (if n = "Placemark" then [[]] else []) ++ pmPathsList 0 cs

def pmPathsList : Nat → List XNode → List (List Nat)
  | _, [] => []
  | k, c :: rest => (pmPathsNode c).map (fun pth => k :: pth) ++ pmPathsList (k + 1) rest
end

/-- Paths of the placemarks of a document, in `soup('Placemark')` order
(preorder over descendants of the root). -/
def pmPaths (doc : XNode) : List (List Nat) :=
  match doc with
  | .elem _ _ _ cs => pmPathsList 0 cs
  | .text _ _ => []

mutual
/-- Apply `f` to the node at the given child-index path. -/
def modifyAt : XNode → List Nat → (XNode → XNode) → XNode
  | t, [], f => f t
  | .elem p n a cs, k :: rest, f => .elem p n a (modifyListAt cs k rest f)
  | .text b s, _ :: _, _ => .text b s

def modifyListAt : List XNode → Nat → List Nat → (XNode → XNode) → List XNode
  | [], _, _, _ => []
  | c :: cs, 0, rest, f => modifyAt c rest f :: cs
  | c :: cs, Nat.succ k, rest, f => c :: modifyListAt cs k rest f
end

/-- The first loop of `apply_color`: walk the captured placemark list in
document order, setting each placemark's `styleUrl` text to its url.  The
Python loop iterates the node list captured before any mutation; since
setting a `styleUrl` never creates or removes a `Placemark` and never shifts
the child index of an existing node (a fresh `styleUrl` child is appended at
the end), applying the mutations path by path in the same order is
equivalent. -/
def assignUrls (doc : XNode) (urls : List String) : XNode :=
  ((pmPaths doc).zip urls).foldl
    (fun d pu => modifyAt d pu.1 (fun pm => setStyleUrl pm pu.2)) doc

mutual
/-- The removal loop of `apply_color`: drop every `Style` or `StyleMap`
element (the node list is captured before decomposition, and decomposing a
tag also discards matching tags nested inside it, so a recursive filter is
equivalent) whose `id` attribute is among the used ids. -/
def remStyNode (ids : List String) : XNode → Option XNode
  | .text b s => some (.text b s)
  | .elem p n a cs =>
      if (n = "Style" || n = "StyleMap")
          && (match a.lookup "id" with
              | some v => ids.contains v
              | none => false) then none
      else some (.elem p n a (remStyList ids cs))

def remStyList (ids : List String) : List XNode → List XNode
  | [] => []
  | c :: rest =>
      match remStyNode ids c with
      | none => remStyList ids rest
      | some c' => c' :: remStyList ids rest
end

/-- Remove the used styles from the document (the soup root itself is not a
`Style`). -/
def removeStyles (ids : List String) (doc : XNode) : XNode :=
  match doc with
  | .elem p n a cs => .elem p n a (remStyList ids cs)
  | t => t

/-- The `int(i[-1])` conversion applied to a style id: the numeric value of
the final character (an `IndexError` on an empty string, a `ValueError` on a
non-digit). -/
def lastCharDigitVal (s : String) : Except String Nat :=
  match s.data.getLast? with
  | none => .error "IndexError: string index out of range"
  | some ch =>
      if ch.isDigit then .ok (ch.toNat - 48)
      else .error "ValueError: invalid literal for int"

/-- The fully populated `Style` element `apply_color` builds for one id:
`<PolyStyle><color>` with the fill color, `<LineStyle><color>` with the
fixed line color `7fcccccc`, and `<IconStyle><Icon><href>` with the icon
url, in the order the `add` chains append them. -/
def styleNode (id fill icon : String) : XNode :=
  .elem none "Style" [("id", id)]
    [.elem none "PolyStyle" [] [.elem none "color" [] [.text false fill]],
     .elem none "LineStyle" [] [.elem none "color" [] [.text false "7fcccccc"]],
     .elem none "IconStyle" [] [.elem none "Icon" [] [.elem none "href" [] [.text false icon]]]]

/-- Build the style element for one used id: `n = int(i[-1])` (the last
character of the id), fill color `colorize[n]`, line color `7fcccccc`, icon
`icons[n]`; a missing entry raises `KeyError`. -/
def mkStyle (id : String) (colorize icons : Nat → Option String) : Except String XNode :=
  match lastCharDigitVal id with
  | .error e => .error e
  | .ok n =>
      match colorize n with
      | none => .error "KeyError: colorize"
      | some fill =>
          match icons n with
          | none => .error "KeyError: icons"
          | some icon => .ok (styleNode id fill icon)

/-- Insert `st` as the first child of the first `Document` descendant
(preorder) found in the list; `none` when there is none. -/
def insDocList (st : XNode) : List XNode → Option (List XNode)
  | [] => none
  | .elem p n a cs :: rest =>
      if n = "Document" then some (.elem p n a (st :: cs) :: rest)
      else
        match insDocList st cs with
        | some cs' => some (.elem p n a cs' :: rest)
        | none =>
            match insDocList st rest with
            | some rest' => some (.elem p n a cs :: rest')
            | none => none
  | .text b s :: rest =>
      match insDocList st rest with
      | some rest' => some (.text b s :: rest')
      | none => none

/-- The statement `soup.Document.insert(0, style)`. -/
def insDoc (st : XNode) (doc : XNode) : Option XNode :=
  match doc with
  | .elem p n a cs => (insDocList st cs).map (fun cs' => .elem p n a cs')
  | .text _ _ => none

/-- The `apply_color` function: set every placemark's `styleUrl`, remove the
existing `Style`/`StyleMap` elements with a used id, then create one new
`Style` per used id in `sorted(ids)` order, inserting each as the first
child of `soup.Document` (an `AttributeError` when no `Document` element
exists).  On failure the Python code may leave the document partially
mutated; as stated in the file header the embedding returns the error
alone. -/
def applyColor (doc : XNode) (coloring : Nat → Option Nat)
    (colorize icons : Nat → Option String) : Except String XNode :=
  match colorsOf coloring (List.range (findAllNode (byTag "Placemark") doc).length) with
  | .error e => .error e
  | .ok colors =>
      let doc1 := assignUrls doc (colors.map (fun c => "#color" ++ Nat.repr c))
      let ids := (idsOf colors).dedup
      let doc2 := removeStyles ids doc1
      (pySorted strLeB ids).foldlM (fun d i =>
        match findDescNode (byTag "Document") d with
        | none => .error "AttributeError: NoneType object has no attribute insert"
        | some _ =>
            match mkStyle i colorize icons with
            | .error e => .error e
            | .ok st => .ok ((insDoc st d).getD d)) doc2

/-- Numeric value of the maximal digit suffix of a string
(`color12` has suffix value `12`, `color2` has `2`): the claim's "numeric
order of their color numbers". -/
def digitsSuffixVal (s : String) : Nat :=
  ((s.data.reverse.takeWhile Char.isDigit).reverse).foldl
    (fun acc c => acc * 10 + (c.toNat - 48)) 0

-- sanity checks of the suffix and ordering computations
example : digitsSuffixVal "color10" = 10 := rfl
example : digitsSuffixVal "color2" = 2 := rfl
example : strLeB "color10" "color2" = true := rfl
example : pySorted strLeB ["color2", "color10"] = ["color10", "color2"] := rfl

/-- A document with two placemarks in a `Document`. -/
def exampleDocC1 : XNode :=
  .elem none "[document]" [] [.elem none "kml" [] [.elem none "Document" []
    [.elem none "Placemark" [] [], .elem none "Placemark" [] []]]]

/-- A complete coloring for `exampleDocC1` using colors 2 and 10. -/
def exampleColoringC1 : Nat → Option Nat :=
  fun i => if i = 0 then some 2 else if i = 1 then some 10 else none

/-- Counterexample to claim C1 as stated: with used colors {2, 10},
`apply_color` creates the styles in the order `color10`, `color2`
(Python `sorted` compares the id strings lexicographically), which is not
ascending numeric order of the color numbers. -/
theorem apply_color_numeric_order_counterexample :
    styleOrder exampleDocC1 exampleColoringC1 = .ok ["color10", "color2"]
    ∧ ¬ List.Sorted (fun a b : String => digitsSuffixVal a ≤ digitsSuffixVal b)
        ["color10", "color2"] := by
  constructor
  · rfl
  · intro h
    have := List.rel_of_sorted_cons h "color2" (by simp)
    simp [digitsSuffixVal] at this

theorem styleOrder_ok_shape (doc : XNode) (coloring : Nat → Option Nat) (l : List String)
    (h : styleOrder doc coloring = .ok l) :
    ∃ colors,
      colorsOf coloring (List.range (findAllNode (byTag "Placemark") doc).length) = .ok colors
      ∧ l = pySorted strLeB (idsOf colors).dedup := by
  unfold styleOrder at h
  cases hc : colorsOf coloring (List.range (findAllNode (byTag "Placemark") doc).length) with
  | error e => rw [hc] at h; simp [Except.map] at h
  | ok colors =>
      rw [hc] at h
      simp only [Except.map, Except.ok.injEq] at h
      exact ⟨colors, rfl, h.symm⟩

theorem colorsOf_mem (coloring : Nat → Option Nat) :
    ∀ (idxs : List Nat) (cs : List Nat), colorsOf coloring idxs = .ok cs →
      ∀ c ∈ cs, ∃ i, coloring i = some c := by
  intro idxs
  induction idxs with
  | nil =>
      intro cs h c hc
      simp only [colorsOf, Except.ok.injEq] at h
      rw [← h] at hc
      simp at hc
  | cons i rest ih =>
      intro cs h c hc
      simp only [colorsOf] at h
      cases hco : coloring i with
      | none => rw [hco] at h; simp at h
      | some c0 =>
          rw [hco] at h
          cases hrest : colorsOf coloring rest with
          | error e => rw [hrest] at h; simp [Except.map] at h
          | ok cs0 =>
              rw [hrest] at h
              simp only [Except.map, Except.ok.injEq] at h
              rw [← h] at hc
              rcases List.mem_cons.mp hc with hc | hc
              · exact ⟨i, by rw [hco, hc]⟩
              · exact ih cs0 hrest c hc

/-- For single-digit color numbers, Python's lexicographic comparison of the
`colorN` id strings agrees with the numeric comparison of the numbers. -/
theorem strLeB_colorId_iff :
    ∀ c < 10, ∀ d < 10,
      (strLeB ("color" ++ Nat.repr c) ("color" ++ Nat.repr d) = true ↔ c ≤ d) := by
  decide

theorem digitsSuffixVal_colorId :
    ∀ c < 10, digitsSuffixVal ("color" ++ Nat.repr c) = c := by
  decide

theorem findDescList_pred (p : XNode → Bool) (cs : List XNode) :
    ∀ g, findDescList p cs = some g → p g = true := by
  refine findDescList.induct p
    (fun cs => ∀ g, findDescList p cs = some g → p g = true)
    (fun t => ∀ g, findDescNode p t = some g → p g = true)
    ?_ ?_ ?_ ?_ ?_ ?_ cs
  case refine_1 =>
    intro b s g h
    simp [findDescNode] at h
  case refine_2 =>
    intro q n a ccs ih g h
    exact ih g h
  case refine_3 =>
    intro g h
    simp [findDescList] at h
  case refine_4 =>
    intro c rest hpc g h
    rw [show findDescList p (c :: rest) = some c from by
      simp [findDescList, hpc]] at h
    rw [Option.some_inj] at h
    rw [← h]
    exact hpc
  case refine_5 =>
    intro c rest hpc r hr ih g h
    rw [show findDescList p (c :: rest) = some r from by
      simp [findDescList, hpc, hr]] at h
    rw [Option.some_inj] at h
    rw [← h]
    exact ih r hr
  case refine_6 =>
    intro c rest hpc hnone ih ihrest g h
    rw [show findDescList p (c :: rest) = findDescList p rest from by
      simp [findDescList, hpc, hnone]] at h
    exact ihrest g h

/-- A node found by a `byTag` search is an element with that tag. -/
theorem byTag_elem_shape (g : XNode) (nm : String) (h : byTag nm g = true) :
    ∃ q a2 gcs, g = XNode.elem q nm a2 gcs := by
  cases g with
  | text b s => simp [byTag] at h
  | elem q tg a2 gcs =>
      simp only [byTag, decide_eq_true_eq] at h
      exact ⟨q, a2, gcs, by rw [h]⟩

/-- Correspondence of `soup.Document` (the first `Document` descendant in
preorder) and `insert(0, style)`: the insertion succeeds exactly when such
an element exists, it prepends the new style to that element's children, and
the updated element is still the first `Document` descendant afterwards. -/
theorem insDocList_first_document (st : XNode) (cs : List XNode) :
    (findDescList (byTag "Document") cs = none → insDocList st cs = none)
    ∧ (∀ q a2 gcs,
        findDescList (byTag "Document") cs = some (XNode.elem q "Document" a2 gcs) →
        ∃ cs', insDocList st cs = some cs'
          ∧ findDescList (byTag "Document") cs' =
              some (XNode.elem q "Document" a2 (st :: gcs))) := by
  refine insDocList.induct st (fun cs =>
      (findDescList (byTag "Document") cs = none → insDocList st cs = none)
      ∧ (∀ q a2 gcs,
          findDescList (byTag "Document") cs = some (XNode.elem q "Document" a2 gcs) →
          ∃ cs', insDocList st cs = some cs'
            ∧ findDescList (byTag "Document") cs' =
                some (XNode.elem q "Document" a2 (st :: gcs))))
    ?_ ?_ ?_ ?_ ?_ ?_ ?_ cs
  case refine_1 =>
    constructor
    · intro _
      simp [insDocList]
    · intro q a2 gcs h
      simp [findDescList] at h
  case refine_2 =>
    intro p a ccs rest
    have hhead : findDescList (byTag "Document") (XNode.elem p "Document" a ccs :: rest)
        = some (XNode.elem p "Document" a ccs) := by
      simp [findDescList, byTag]
    constructor
    · intro h
      rw [hhead] at h
      exact Option.noConfusion h
    · intro q a2 gcs h
      rw [hhead, Option.some_inj, XNode.elem.injEq] at h
      obtain ⟨hq, _, ha, hcs⟩ := h
      refine ⟨XNode.elem p "Document" a (st :: ccs) :: rest, by simp [insDocList], ?_⟩
      rw [← hq, ← ha, ← hcs]
      simp [findDescList, byTag]
  case refine_3 =>
    intro p n a ccs rest hn cs0 heq ih
    obtain ⟨ih1, ih2⟩ := ih
    cases hf : findDescList (byTag "Document") ccs with
    | none =>
        rw [ih1 hf] at heq
        exact Option.noConfusion heq
    | some g =>
        obtain ⟨qg, ag, gcsg, rfl⟩ :=
          byTag_elem_shape g "Document" (findDescList_pred (byTag "Document") ccs g hf)
        obtain ⟨cs2, hcs2, hfind2⟩ := ih2 qg ag gcsg hf
        rw [heq, Option.some_inj] at hcs2
        subst hcs2
        have hhead : findDescList (byTag "Document") (XNode.elem p n a ccs :: rest)
            = some (XNode.elem qg "Document" ag gcsg) := by
          simp [findDescList, byTag, findDescNode, hn, hf]
        constructor
        · intro h
          rw [hhead] at h
          exact Option.noConfusion h
        · intro q a2 gcs h
          rw [hhead, Option.some_inj, XNode.elem.injEq] at h
          obtain ⟨hq, _, ha, hcs⟩ := h
          refine ⟨XNode.elem p n a cs0 :: rest, by simp [insDocList, hn, heq], ?_⟩
          rw [← hq, ← ha, ← hcs]
          simp [findDescList, byTag, findDescNode, hn, hfind2]
  case refine_4 =>
    intro p n a ccs rest hn hccs rest0 hrest ihc ihr
    obtain ⟨ihc1, ihc2⟩ := ihc
    obtain ⟨ihr1, ihr2⟩ := ihr
    have hf : findDescList (byTag "Document") ccs = none := by
      cases hf0 : findDescList (byTag "Document") ccs with
      | none => rfl
      | some g =>
          obtain ⟨qg, ag, gcsg, rfl⟩ :=
            byTag_elem_shape g "Document" (findDescList_pred (byTag "Document") ccs g hf0)
          obtain ⟨cs2, hcs2, _⟩ := ihc2 qg ag gcsg hf0
          rw [hccs] at hcs2
          exact Option.noConfusion hcs2
    have hhead : findDescList (byTag "Document") (XNode.elem p n a ccs :: rest)
        = findDescList (byTag "Document") rest := by
      simp [findDescList, byTag, findDescNode, hn, hf]
    constructor
    · intro h
      rw [hhead] at h
      rw [ihr1 h] at hrest
      exact Option.noConfusion hrest
    · intro q a2 gcs h
      rw [hhead] at h
      obtain ⟨rest2, hrest2, hfind2⟩ := ihr2 q a2 gcs h
      rw [hrest, Option.some_inj] at hrest2
      subst hrest2
      refine ⟨XNode.elem p n a ccs :: rest0, by simp [insDocList, hn, hccs, hrest], ?_⟩
      rw [show findDescList (byTag "Document") (XNode.elem p n a ccs :: rest0)
          = findDescList (byTag "Document") rest0 from by
        simp [findDescList, byTag, findDescNode, hn, hf]]
      exact hfind2
  case refine_5 =>
    intro p n a ccs rest hn hccs hrest ihc ihr
    obtain ⟨ihc1, ihc2⟩ := ihc
    obtain ⟨ihr1, ihr2⟩ := ihr
    have hf : findDescList (byTag "Document") ccs = none := by
      cases hf0 : findDescList (byTag "Document") ccs with
      | none => rfl
      | some g =>
          obtain ⟨qg, ag, gcsg, rfl⟩ :=
            byTag_elem_shape g "Document" (findDescList_pred (byTag "Document") ccs g hf0)
          obtain ⟨cs2, hcs2, _⟩ := ihc2 qg ag gcsg hf0
          rw [hccs] at hcs2
          exact Option.noConfusion hcs2
    have hfr : findDescList (byTag "Document") rest = none := by
      cases hf0 : findDescList (byTag "Document") rest with
      | none => rfl
      | some g =>
          obtain ⟨qg, ag, gcsg, rfl⟩ :=
            byTag_elem_shape g "Document" (findDescList_pred (byTag "Document") rest g hf0)
          obtain ⟨cs2, hcs2, _⟩ := ihr2 qg ag gcsg hf0
          rw [hrest] at hcs2
          exact Option.noConfusion hcs2
    have hhead : findDescList (byTag "Document") (XNode.elem p n a ccs :: rest)
        = findDescList (byTag "Document") rest := by
      simp [findDescList, byTag, findDescNode, hn, hf]
    constructor
    · intro _
      simp [insDocList, hn, hccs, hrest]
    · intro q a2 gcs h
      rw [hhead, hfr] at h
      exact Option.noConfusion h
  case refine_6 =>
    intro b s rest rest0 hrest ihr
    obtain ⟨ihr1, ihr2⟩ := ihr
    have hhead : findDescList (byTag "Document") (XNode.text b s :: rest)
        = findDescList (byTag "Document") rest := by
      simp [findDescList, byTag, findDescNode]
    constructor
    · intro h
      rw [hhead] at h
      rw [ihr1 h] at hrest
      exact Option.noConfusion hrest
    · intro q a2 gcs h
      rw [hhead] at h
      obtain ⟨rest2, hrest2, hfind2⟩ := ihr2 q a2 gcs h
      rw [hrest, Option.some_inj] at hrest2
      subst hrest2
      refine ⟨XNode.text b s :: rest0, by simp [insDocList, hrest], ?_⟩
      rw [show findDescList (byTag "Document") (XNode.text b s :: rest0)
          = findDescList (byTag "Document") rest0 from by
        simp [findDescList, byTag, findDescNode]]
      exact hfind2
  case refine_7 =>
    intro b s rest hrest ihr
    obtain ⟨ihr1, ihr2⟩ := ihr
    have hfr : findDescList (byTag "Document") rest = none := by
      cases hf0 : findDescList (byTag "Document") rest with
      | none => rfl
      | some g =>
          obtain ⟨qg, ag, gcsg, rfl⟩ :=
            byTag_elem_shape g "Document" (findDescList_pred (byTag "Document") rest g hf0)
          obtain ⟨cs2, hcs2, _⟩ := ihr2 qg ag gcsg hf0
          rw [hrest] at hcs2
          exact Option.noConfusion hcs2
    have hhead : findDescList (byTag "Document") (XNode.text b s :: rest)
        = findDescList (byTag "Document") rest := by
      simp [findDescList, byTag, findDescNode]
    constructor
    · intro _
      simp [insDocList, hrest]
    · intro q a2 gcs h
      rw [hhead, hfr] at h
      exact Option.noConfusion h

/-- The insertion step `soup.Document.insert(0, style)` used by
`apply_color` for each created style: it inserts the style as the first
child of the document's first `Document` element, which remains the first
`Document` element afterwards. -/
theorem insDoc_first_child (st d : XNode) (q : Option String)
    (a2 : List (String × String)) (cs2 : List XNode)
    (h : findDescNode (byTag "Document") d = some (XNode.elem q "Document" a2 cs2)) :
    ∃ d', insDoc st d = some d'
      ∧ findDescNode (byTag "Document") d' =
          some (XNode.elem q "Document" a2 (st :: cs2)) := by
  cases d with
  | text b s => simp [findDescNode] at h
  | elem p n a cs =>
      rw [show findDescNode (byTag "Document") (XNode.elem p n a cs)
          = findDescList (byTag "Document") cs from rfl] at h
      obtain ⟨cs', h1, h2⟩ := (insDocList_first_document st cs).2 q a2 cs2 h
      exact ⟨XNode.elem p n a cs', by simp [insDoc, h1], h2⟩

/-- Claim C1, amended (corrected): `apply_color` creates the new style
elements in ascending lexicographic order of the used id strings (Python
`sorted` on strings), inserting each as the first child of the top-level
`Document` container (which remains the first `Document` afterwards, so
every created style lands there).  For every coloring the creation order is
lexicographically sorted and deterministic regardless of placemark
processing order -- any two runs whose used-id sets are equal create the
styles in the same order; the order coincides with ascending numeric order
of the color numbers when all used color numbers are single-digit (as with
the default four-color configuration), but not in general (`color10`
precedes `color2`, see the counterexample). -/
theorem apply_color_insert_order (doc : XNode) (coloring : Nat → Option Nat)
    (l : List String)
    (hso : styleOrder doc coloring = .ok l) :
    List.Sorted (fun a b => strLeB a b = true) l
    ∧ ((∀ i c, coloring i = some c → c ≤ 9) →
        List.Sorted (fun a b : String => digitsSuffixVal a ≤ digitsSuffixVal b) l)
    ∧ (∀ (doc2 : XNode) (coloring2 : Nat → Option Nat) (l2 : List String),
        styleOrder doc2 coloring2 = .ok l2 → (∀ s, s ∈ l ↔ s ∈ l2) → l = l2)
    ∧ (∀ (st d : XNode) (q : Option String) (a2 : List (String × String))
        (cs2 : List XNode),
        findDescNode (byTag "Document") d = some (XNode.elem q "Document" a2 cs2) →
        ∃ d', insDoc st d = some d'
          ∧ findDescNode (byTag "Document") d' =
              some (XNode.elem q "Document" a2 (st :: cs2))) := by
  obtain ⟨colors, hc, hl⟩ := styleOrder_ok_shape doc coloring l hso
  have hsorted : List.Sorted (fun a b => strLeB a b = true) l := by
    rw [hl]; exact pySorted_sorted strLeB strLeB_total strLeB_trans _
  refine ⟨hsorted, ?_, ?_, ?_⟩
  · intro hsd
    have hmem : ∀ s ∈ l, ∃ c, c ≤ 9 ∧ s = "color" ++ Nat.repr c := by
      intro s hs
      rw [hl] at hs
      have hs2 : s ∈ (idsOf colors).dedup := ((pySorted_perm strLeB _).mem_iff).mp hs
      have hs3 : s ∈ idsOf colors := List.mem_dedup.mp hs2
      obtain ⟨c, hcmem, hceq⟩ := List.mem_map.mp hs3
      obtain ⟨i, hi⟩ := colorsOf_mem coloring _ colors hc c hcmem
      exact ⟨c, hsd i c hi, hceq.symm⟩
    refine List.Pairwise.imp_of_mem ?_ hsorted
    intro a b ha hb hab
    obtain ⟨c, hc9, rfl⟩ := hmem a ha
    obtain ⟨d, hd9, rfl⟩ := hmem b hb
    rw [digitsSuffixVal_colorId c (by omega), digitsSuffixVal_colorId d (by omega)]
    exact (strLeB_colorId_iff c (by omega) d (by omega)).mp hab
  · intro doc2 coloring2 l2 hso2 hmm
    obtain ⟨colors2, hc2, hl2⟩ := styleOrder_ok_shape doc2 coloring2 l2 hso2
    have hnd : l.Nodup := by
      rw [hl]; exact ((pySorted_perm strLeB _).nodup_iff).mpr (List.nodup_dedup _)
    have hnd2 : l2.Nodup := by
      rw [hl2]; exact ((pySorted_perm strLeB _).nodup_iff).mpr (List.nodup_dedup _)
    have hperm : l.Perm l2 := (List.perm_ext_iff_of_nodup hnd hnd2).mpr hmm
    have hsorted2 : List.Sorted (fun a b => strLeB a b = true) l2 := by
      rw [hl2]; exact pySorted_sorted strLeB strLeB_total strLeB_trans _
    haveI : IsAntisymm String (fun a b => strLeB a b = true) :=
      ⟨fun a b => strLeB_antisymm a b⟩
    exact List.eq_of_perm_of_sorted hperm hsorted hsorted2
  · intro st d q a2 cs2 h
    exact insDoc_first_child st d q a2 cs2 h

/-- A complete single-digit coloring for `exampleDocC1`: placemark 0 gets
color 1, placemark 1 gets color 2. -/
def exampleColoringW : Nat → Option Nat :=
  fun i => if i < 2 then some (i + 1) else none

/-- Witness for the amended claim C1 at a concrete document and coloring. -/
theorem apply_color_insert_order_witness :
    styleOrder exampleDocC1 exampleColoringW = .ok ["color1", "color2"]
    ∧ (List.Sorted (fun a b => strLeB a b = true) ["color1", "color2"]
      ∧ ((∀ i c, exampleColoringW i = some c → c ≤ 9) →
          List.Sorted (fun a b : String => digitsSuffixVal a ≤ digitsSuffixVal b)
            ["color1", "color2"])
      ∧ (∀ (doc2 : XNode) (coloring2 : Nat → Option Nat) (l2 : List String),
          styleOrder doc2 coloring2 = .ok l2 →
          (∀ s, s ∈ ["color1", "color2"] ↔ s ∈ l2) → ["color1", "color2"] = l2)
      ∧ (∀ (st d : XNode) (q : Option String) (a2 : List (String × String))
          (cs2 : List XNode),
          findDescNode (byTag "Document") d = some (XNode.elem q "Document" a2 cs2) →
          ∃ d', insDoc st d = some d'
            ∧ findDescNode (byTag "Document") d' =
                some (XNode.elem q "Document" a2 (st :: cs2)))) :=
  ⟨rfl, apply_color_insert_order exampleDocC1 exampleColoringW ["color1", "color2"] rfl⟩

/-- A color/icon configuration with entries for both 2 and 12. -/
def exampleColorizeC2 : Nat → Option String :=
  fun n => if n = 2 then some "AA" else if n = 12 then some "BB" else none

/-- Icon configuration with entries for both 2 and 12. -/
def exampleIconsC2 : Nat → Option String :=
  fun n => if n = 2 then some "ia" else if n = 12 then some "ib" else none

/-- Counterexample to claim C2 as stated: for the used id `color12` the
claim says the style is populated from `colorize[12]`/`icons[12]` (the full
numeric suffix 12), but the code computes `int(i[-1]) = 2` (the final
character only) and populates from `colorize[2]`/`icons[2]`, although
distinct entries for 12 exist. -/
theorem apply_color_suffix_counterexample :
    mkStyle "color12" exampleColorizeC2 exampleIconsC2 = .ok (styleNode "color12" "AA" "ia")
    ∧ exampleColorizeC2 12 = some "BB"
    ∧ exampleIconsC2 12 = some "ib"
    ∧ ("AA" ≠ "BB" ∧ "ia" ≠ "ib") :=
  ⟨rfl, rfl, rfl, by decide⟩

/-- Claim C2, amended (corrected): for a used style id whose final character
is the digit `d`, `apply_color` populates the created style element with
polygon fill color `colorize[n]`, the fixed line color `7fcccccc`, and icon
reference `icons[n]`, where `n = int(id[-1])` is the numeric value of the
final character of the id -- equal to the full numeric suffix `N` only when
`N` has a single digit (so for `color12`, `n` is 2, not 12). -/
theorem apply_color_style_population (s : String) (d : Char)
    (cz ic : Nat → Option String) (fill icon : String)
    (hlast : s.data.getLast? = some d) (hdig : d.isDigit = true)
    (hcz : cz (d.toNat - 48) = some fill) (hic : ic (d.toNat - 48) = some icon) :
    mkStyle s cz ic = .ok (styleNode s fill icon) := by
  unfold mkStyle lastCharDigitVal
  rw [hlast]
  simp only [hdig, if_true, hcz, hic]

/-- Witness for the amended claim C2 at the concrete id `color12`. -/
theorem apply_color_style_population_witness :
    ("color12").data.getLast? = some '2'
    ∧ Char.isDigit '2' = true
    ∧ exampleColorizeC2 ('2'.toNat - 48) = some "AA"
    ∧ exampleIconsC2 ('2'.toNat - 48) = some "ia"
    ∧ mkStyle "color12" exampleColorizeC2 exampleIconsC2 =
        .ok (styleNode "color12" "AA" "ia") :=
  ⟨rfl, rfl, rfl, rfl,
    apply_color_style_population "color12" '2' exampleColorizeC2 exampleIconsC2
      "AA" "ia" rfl rfl rfl rfl⟩

/-! ## The spatial index builder -/

/-- A grid cell: an integer pair identifying a rectangle of the global
longitude/latitude grid. -/
def Cell : Type := Int × Int

instance : DecidableEq Cell := fun a b => instDecidableEqProd a b

/-- Python `str.split()` (split on whitespace runs, no empty tokens):
accumulator-based word splitter. -/
def wordsAux (acc : List Char) : List Char → List (List Char)
  | [] => if acc.isEmpty then [] else [acc.reverse]
  | c :: rest =>
      if isSpaceChar c then
        (if acc.isEmpty then wordsAux [] rest else acc.reverse :: wordsAux [] rest)
      else wordsAux (c :: acc) rest

/-- Python `s.split()`. -/
def pySplitWs (s : String) : List String := (wordsAux [] s.data).map String.mk

/-- Python `s.split(',')` (keeps empty pieces). -/
def splitOnComma : List Char → List (List Char)
  | [] => [[]]
  | c :: rest =>
      let r := splitOnComma rest
      if c = ',' then [] :: r
      else
        match r with
        | [] => [[c]]
        | h :: t => (c :: h) :: t

/-- Python `s.split(',')` on strings. -/
def pySplitComma (s : String) : List String := (splitOnComma s.data).map String.mk

/-- The helper `coords_from_tag(tag, first_n_coords=2)`: split the tag's
string on whitespace, split each chunk on `,` and keep the first two pieces.
The `float(dim)` conversion of each piece belongs to coordinate parsing,
whose numeric values no claim depends on, so the pieces stay unparsed
strings here; a `coordinates` tag without a `.string` raises
`AttributeError` (`None.strip()`). -/
def coordsFromTag (t : XNode) : Except String (List (List String)) :=
  match tagString t with
  | none => .error "AttributeError: NoneType object has no attribute strip"
  | some s => .ok ((pySplitWs (pyStrip s)).map (fun chunk => (pySplitComma chunk).take 2))

/-- Python set difference `A - B` on cell sets (a Python `set` is modelled
as the list of its elements in iteration order). -/
def listDiff (A B : List Cell) : List Cell := A.filter (fun c => decide (c ∉ B))

/-- Python `A.update(B)` on cell sets. -/
def listUnion (A B : List Cell) : List Cell := A ++ B.filter (fun c => decide (c ∉ A))

theorem mem_listDiff (A B : List Cell) (c : Cell) : c ∈ listDiff A B ↔ c ∈ A ∧ c ∉ B := by
  unfold listDiff
  rw [List.mem_filter]
  simp

theorem mem_listUnion (A B : List Cell) (c : Cell) : c ∈ listUnion A B ↔ c ∈ A ∨ c ∈ B := by
  unfold listUnion
  rw [List.mem_append, List.mem_filter]
  by_cases h : c ∈ A <;> simp [h]

/-- Extraction of `pg.outerBoundaryIs.coordinates` coordinates (the
attribute chain raises `AttributeError` when a tag is missing). -/
def outerCoordsOf (pg : XNode) : Except String (List (List String)) :=
  match findDescNode (byTag "outerBoundaryIs") pg with
  | none => .error "AttributeError: NoneType object has no attribute coordinates"
  | some ob =>
      match findDescNode (byTag "coordinates") ob with
      | none => .error "AttributeError: NoneType object has no attribute string"
      | some ct => coordsFromTag ct

/-- Extraction of `ibi.coordinates` coordinates for one inner boundary. -/
def innerExtract (ibi : XNode) : Except String (List (List String)) :=
  match findDescNode (byTag "coordinates") ibi with
  | none => .error "AttributeError: NoneType object has no attribute string"
  | some ict => coordsFromTag ict

/-- Extraction of the coordinates of every `innerBoundaryIs` of a polygon,
in document order. -/
def innersExtract : List XNode → Except String (List (List (List String)))
  | [] => .ok []
  | ibi :: rest =>
      match innerExtract ibi with
      | .error e => .error e
      | .ok inner => (innersExtract rest).map (fun l => inner :: l)

/-- The coordinates of all inner boundaries of a polygon element. -/
def innerCoordsOf (pg : XNode) : Except String (List (List (List String))) :=
  innersExtract (findAllNode (byTag "innerBoundaryIs") pg)

/-- One hole subtraction step of `_spdx_pg`:
`cells -= (hole_fill - hole_rim)` where `hole_rim = _cells(inner, 1)` and
`hole_fill = _cells(inner, 2, boundary_cells=hole_rim)`. -/
def holeStep (cells1 : List (List String) → List Cell)
    (cells2 : List (List String) → Option (List Cell) → List Cell)
    (acc : List Cell) (inner : List (List String)) : List Cell :=
  listDiff acc (listDiff (cells2 inner (some (cells1 inner))) (cells1 inner))

/-- The hole loop of `_spdx_pg`: extract each inner boundary in document
order and subtract its strictly-interior cells from the running coverage. -/
def spdxPgHoles (cells1 : List (List String) → List Cell)
    (cells2 : List (List String) → Option (List Cell) → List Cell) :
    List XNode → List Cell → Except String (List Cell)
  | [], acc => .ok acc
  | ibi :: rest, acc =>
      match innerExtract ibi with
      | .error e => .error e
      | .ok inner => spdxPgHoles cells1 cells2 rest (holeStep cells1 cells2 acc inner)

/-- The function `_spdx_pg`: the 2-dimensional fill of the outer boundary,
minus, for each inner boundary in document order, the cells in that hole's
fill but not in its rim.  The grid-cell collaborators (`spindex`) are
abstracted as function parameters (their `scale` argument is absorbed into
the functions). -/
def spdxPg (cells1 : List (List String) → List Cell)
    (cells2 : List (List String) → Option (List Cell) → List Cell)
    (pg : XNode) : Except String (List Cell) :=
  match outerCoordsOf pg with
  | .error e => .error e
  | .ok outer =>
      spdxPgHoles cells1 cells2 (findAllNode (byTag "innerBoundaryIs") pg) (cells2 outer none)

/-- The function `_spdx_ls`: the 1-dimensional coverage of a polyline. -/
def spdxLs (cells1 : List (List String) → List Cell) (ls : XNode) :
    Except String (List Cell) :=
  match findDescNode (byTag "coordinates") ls with
  | none => .error "AttributeError: NoneType object has no attribute string"
  | some ct => (coordsFromTag ct).map cells1

/-- The function `_spdx_pt`: the cell set of the first coordinate
(`IndexError` when the coordinate list is empty). -/
def spdxPt (getCell : List String → List Cell) (pt : XNode) :
    Except String (List Cell) :=
  match findDescNode (byTag "coordinates") pt with
  | none => .error "AttributeError: NoneType object has no attribute string"
  | some ct =>
      match coordsFromTag ct with
      | .error e => .error e
      | .ok coords =>
          match coords with
          | [] => .error "IndexError: list index out of range"
          | c0 :: _ => .ok (getCell c0)

/-- Is this one of the four recognized geometry elements? -/
def isGeomTag (t : XNode) : Bool :=
  tagIs t "MultiGeometry" || tagIs t "Polygon" || tagIs t "LineString" || tagIs t "Point"

mutual
/-- Dispatch on the geometry kind by tag name (`_TAG_TO_FUNCTION`). -/
def geomCells (getCell : List String → List Cell)
    (cells1 : List (List String) → List Cell)
    (cells2 : List (List String) → Option (List Cell) → List Cell) :
    XNode → Except String (List Cell)
  | .text _ _ => .ok []
  | .elem p n a cs =>
      if n = "MultiGeometry" then overDescs getCell cells1 cells2 cs []
      else if n = "Polygon" then spdxPg cells1 cells2 (.elem p n a cs)
      else if n = "LineString" then spdxLs cells1 (.elem p n a cs)
      else spdxPt getCell (.elem p n a cs)

/-- The loop of `_spdx_mg`: visit every descendant in preorder, and union in
the dispatched cell set of each geometry-tagged element
(`mg(list(_TAG_TO_FUNCTION))` finds all of them, nested ones included). -/
def overDescs (getCell : List String → List Cell)
    (cells1 : List (List String) → List Cell)
    (cells2 : List (List String) → Option (List Cell) → List Cell) :
    List XNode → List Cell → Except String (List Cell)
  | [], acc => .ok acc
  | c :: rest, acc =>
      match (if isGeomTag c then
               (geomCells getCell cells1 cells2 c).map (fun s => listUnion acc s)
             else .ok acc) with
      | .error e => .error e
      | .ok acc1 =>
          match (match c with
                 | .elem _ _ _ ccs => overDescs getCell cells1 cells2 ccs acc1
                 | .text _ _ => .ok acc1) with
          | .error e => .error e
          | .ok acc2 => overDescs getCell cells1 cells2 rest acc2
end

/-- The generator in `_spatial_index`: the first of the four geometry tag
names (in `_TAG_TO_FUNCTION` dict order: MultiGeometry, Polygon, LineString,
Point) for which `pm.find(name)` returns a tag. -/
def firstGeom (pm : XNode) : Option XNode :=
  match findDescNode (byTag "MultiGeometry") pm with
  | some g => some g
  | none =>
      match findDescNode (byTag "Polygon") pm with
      | some g => some g
      | none =>
          match findDescNode (byTag "LineString") pm with
          | some g => some g
          | none => findDescNode (byTag "Point") pm

/-- The function `_spatial_index(pm, scale)`: dispatch on the first
recognized geometry, `ValueError` when there is none. -/
def spatialIndexPm (getCell : List String → List Cell)
    (cells1 : List (List String) → List Cell)
    (cells2 : List (List String) → Option (List Cell) → List Cell)
    (pm : XNode) : Except String (List Cell) :=
  match firstGeom pm with
  | some g => geomCells getCell cells1 cells2 g
  | none => .error "ValueError: Placemark has no Point, LineString, Polygon, or MultiGeometry"

/-- Add `index[cell].add(i)` (creating the entry if needed) to the dict,
modelled as an association list in key-insertion order. -/
def indexAdd (idx : List (Cell × Finset Nat)) (cell : Cell) (i : Nat) :
    List (Cell × Finset Nat) :=
  if idx.any (fun p => decide (p.1 = cell)) then
    idx.map (fun p => if p.1 = cell then (p.1, insert i p.2) else p)
  else idx ++ [(cell, {i})]

/-- The placemark loop of `spatial_index`. -/
def spatialIndexGo (getCell : List String → List Cell)
    (cells1 : List (List String) → List Cell)
    (cells2 : List (List String) → Option (List Cell) → List Cell) :
    List XNode → Nat → List (Cell × Finset Nat) →
      Except String (List (Cell × Finset Nat))
  | [], _, idx => .ok idx
  | pm :: rest, i, idx =>
      match spatialIndexPm getCell cells1 cells2 pm with
      | .error e => .error e
      | .ok cells =>
          spatialIndexGo getCell cells1 cells2 rest (i + 1)
            (cells.foldl (fun ix cell => indexAdd ix cell i) idx)

/-- The function `spatial_index(soup, scale)`: for every placemark in
document order (index 0..n-1), compute its covering cells and invert into a
mapping from cell to the set of covering placemark indices; the whole build
aborts on the first failing placemark. -/
def spatialIndex (getCell : List String → List Cell)
    (cells1 : List (List String) → List Cell)
    (cells2 : List (List String) → Option (List Cell) → List Cell)
    (doc : XNode) : Except String (List (Cell × Finset Nat)) :=
  spatialIndexGo getCell cells1 cells2 (findAllNode (byTag "Placemark") doc) 0 []

theorem spdxPgHoles_ok (cells1 : List (List String) → List Cell)
    (cells2 : List (List String) → Option (List Cell) → List Cell) :
    ∀ (ibis : List XNode) (inners : List (List (List String))),
      innersExtract ibis = .ok inners →
      ∀ acc, spdxPgHoles cells1 cells2 ibis acc =
        .ok (inners.foldl (holeStep cells1 cells2) acc) := by
  intro ibis
  induction ibis with
  | nil =>
      intro inners h acc
      simp only [innersExtract, Except.ok.injEq] at h
      rw [← h]
      rfl
  | cons ibi rest ih =>
      intro inners h acc
      simp only [innersExtract] at h
      cases he : innerExtract ibi with
      | error e => rw [he] at h; simp at h
      | ok inner =>
          rw [he] at h
          cases hrest : innersExtract rest with
          | error e => rw [hrest] at h; simp [Except.map] at h
          | ok inners0 =>
              rw [hrest] at h
              simp only [Except.map, Except.ok.injEq] at h
              rw [← h]
              simp only [spdxPgHoles, he]
              rw [ih inners0 hrest]
              rfl

theorem mem_foldl_holeStep (cells1 : List (List String) → List Cell)
    (cells2 : List (List String) → Option (List Cell) → List Cell) :
    ∀ (inners : List (List (List String))) (acc : List Cell) (cell : Cell),
      cell ∈ inners.foldl (holeStep cells1 cells2) acc ↔
        (cell ∈ acc ∧ ∀ ib ∈ inners,
          ¬(cell ∈ cells2 ib (some (cells1 ib)) ∧ cell ∉ cells1 ib)) := by
  intro inners
  induction inners with
  | nil => intro acc cell; simp
  | cons ib rest ih =>
      intro acc cell
      rw [List.foldl_cons, ih]
      unfold holeStep
      rw [mem_listDiff, mem_listDiff]
      constructor
      · rintro ⟨⟨h1, h2⟩, h3⟩
        refine ⟨h1, ?_⟩
        intro ib2 hib2
        rcases List.mem_cons.mp hib2 with hib2 | hib2
        · rw [hib2]; intro hc; exact h2 hc
        · exact h3 ib2 hib2
      · rintro ⟨h1, h2⟩
        refine ⟨⟨h1, ?_⟩, ?_⟩
        · exact h2 ib (List.mem_cons_self ib rest)
        · intro ib2 hib2
          exact h2 ib2 (List.mem_cons_of_mem ib hib2)

/-- Claim C7 (confirmed): for every Polygon geometry, the covering cell set
equals the 2-dimensional fill of the outer boundary minus, for each inner
boundary taken independently in document order, the cells in that hole's
2-dimensional fill but not in its 1-dimensional rim (stated extensionally:
a cell is covered iff it is in the outer fill and, for every hole, not
strictly interior to it); and a hole's own subtraction never removes cells
of that hole's rim (they are never in the subtracted set `fill - rim`). -/
theorem spdx_pg_hole_subtraction
    (cells1 : List (List String) → List Cell)
    (cells2 : List (List String) → Option (List Cell) → List Cell)
    (pg : XNode) (outer : List (List String)) (inners : List (List (List String)))
    (houter : outerCoordsOf pg = .ok outer)
    (hinner : innerCoordsOf pg = .ok inners) :
    ∃ S, spdxPg cells1 cells2 pg = .ok S
      ∧ (∀ cell : Cell, cell ∈ S ↔ (cell ∈ cells2 outer none ∧
          ∀ ib ∈ inners, ¬(cell ∈ cells2 ib (some (cells1 ib)) ∧ cell ∉ cells1 ib)))
      ∧ (∀ ib ∈ inners, ∀ cell ∈ cells1 ib,
          cell ∉ listDiff (cells2 ib (some (cells1 ib))) (cells1 ib)) := by
  refine ⟨inners.foldl (holeStep cells1 cells2) (cells2 outer none), ?_, ?_, ?_⟩
  · unfold spdxPg
    rw [houter]
    exact spdxPgHoles_ok cells1 cells2 _ inners hinner (cells2 outer none)
  · intro cell
    exact mem_foldl_holeStep cells1 cells2 inners (cells2 outer none) cell
  · intro ib _ cell hcell
    rw [mem_listDiff]
    rintro ⟨_, h2⟩
    exact h2 hcell

/-- A square outer boundary fully enclosing a smaller square hole. -/
def examplePolygon : XNode :=
  .elem none "Polygon" []
    [.elem none "outerBoundaryIs" [] [.elem none "LinearRing" []
      [.elem none "coordinates" [] [.text false "0,0 4,0 4,4 0,4 0,0"]]],
     .elem none "innerBoundaryIs" [] [.elem none "LinearRing" []
      [.elem none "coordinates" [] [.text false "1,1 3,1 3,3 1,3 1,1"]]]]

/-- A concrete stand-in for the 1-dimensional grid-cell collaborator: the
rim of the hole. -/
def exampleCells1 : List (List String) → List Cell := fun _ => [(1, 1), (2, 1)]

/-- A concrete stand-in for the 2-dimensional grid-cell collaborator: the
outer fill without a boundary hint, the hole fill with one. -/
def exampleCells2 : List (List String) → Option (List Cell) → List Cell :=
  fun _ hint =>
    match hint with
    | none => [(0, 0), (1, 1), (2, 1), (2, 2)]
    | some _ => [(1, 1), (2, 1), (2, 2)]

/-- Witness for claim C7 at a concrete polygon-with-hole and concrete cell
collaborators. -/
theorem spdx_pg_hole_subtraction_witness :
    ∃ S, spdxPg exampleCells1 exampleCells2 examplePolygon = .ok S
      ∧ (∀ cell : Cell, cell ∈ S ↔
          (cell ∈ exampleCells2
              [["0", "0"], ["4", "0"], ["4", "4"], ["0", "4"], ["0", "0"]] none ∧
            ∀ ib ∈ [[["1", "1"], ["3", "1"], ["3", "3"], ["1", "3"], ["1", "1"]]],
              ¬(cell ∈ exampleCells2 ib (some (exampleCells1 ib)) ∧ cell ∉ exampleCells1 ib)))
      ∧ (∀ ib ∈ [[["1", "1"], ["3", "1"], ["3", "3"], ["1", "3"], ["1", "1"]]],
          ∀ cell ∈ exampleCells1 ib,
            cell ∉ listDiff (exampleCells2 ib (some (exampleCells1 ib))) (exampleCells1 ib)) :=
  spdx_pg_hole_subtraction exampleCells1 exampleCells2 examplePolygon
    [["0", "0"], ["4", "0"], ["4", "4"], ["0", "4"], ["0", "0"]]
    [[["1", "1"], ["3", "1"], ["3", "3"], ["1", "3"], ["1", "1"]]] rfl rfl

theorem spatialIndexGo_error_after (getCell : List String → List Cell)
    (cells1 : List (List String) → List Cell)
    (cells2 : List (List String) → Option (List Cell) → List Cell)
    (pm : XNode) (l2 : List XNode) (hng : firstGeom pm = none) :
    ∀ (l1 : List XNode), (∀ q ∈ l1, ∃ s, spatialIndexPm getCell cells1 cells2 q = .ok s) →
      ∀ (i : Nat) (idx : List (Cell × Finset Nat)),
        spatialIndexGo getCell cells1 cells2 (l1 ++ pm :: l2) i idx =
          .error "ValueError: Placemark has no Point, LineString, Polygon, or MultiGeometry" := by
  intro l1
  induction l1 with
  | nil =>
      intro _ i idx
      simp only [List.nil_append, spatialIndexGo, spatialIndexPm, hng]
  | cons q l1 ih =>
      intro hok i idx
      obtain ⟨s, hs⟩ := hok q (List.mem_cons_self q l1)
      rw [List.cons_append]
      simp only [spatialIndexGo, hs]
      exact ih (fun r hr => hok r (List.mem_cons_of_mem q hr)) _ _

/-- Claim C8 (confirmed): for every document with a placemark whose geometry
is none of the four recognized kinds (no `Point`, `LineString`, `Polygon` or
`MultiGeometry` descendant), the spatial-index build raises the
malformed-input `ValueError` when it reaches the first such placemark
(all earlier placemarks dispatch successfully) and returns no partial index
to the caller (the result is the error alone). -/
theorem spatial_index_unrecognized_geometry_error
    (getCell : List String → List Cell)
    (cells1 : List (List String) → List Cell)
    (cells2 : List (List String) → Option (List Cell) → List Cell)
    (doc pm : XNode) (l1 l2 : List XNode)
    (hsplit : findAllNode (byTag "Placemark") doc = l1 ++ pm :: l2)
    (hok : ∀ q ∈ l1, ∃ s, spatialIndexPm getCell cells1 cells2 q = .ok s)
    (hng : firstGeom pm = none) :
    spatialIndex getCell cells1 cells2 doc =
      .error "ValueError: Placemark has no Point, LineString, Polygon, or MultiGeometry" := by
  unfold spatialIndex
  rw [hsplit]
  exact spatialIndexGo_error_after getCell cells1 cells2 pm l2 hng l1 hok 0 []

/-- A document with one placemark whose geometry is an unrecognized
`Model`. -/
def exampleDocC8 : XNode :=
  .elem none "[document]" [] [.elem none "kml" [] [.elem none "Document" []
    [.elem none "Placemark" [] [.elem none "Model" [] []]]]]

/-- Witness for claim C8 at a concrete document. -/
theorem spatial_index_unrecognized_geometry_error_witness :
    spatialIndex (fun _ => []) (fun _ => []) (fun _ _ => []) exampleDocC8 =
      .error "ValueError: Placemark has no Point, LineString, Polygon, or MultiGeometry" :=
  spatial_index_unrecognized_geometry_error (fun _ => []) (fun _ => []) (fun _ _ => [])
    exampleDocC8 (.elem none "Placemark" [] [.elem none "Model" [] []]) [] [] rfl
    (by intro q hq; exact absurd hq (List.not_mem_nil q)) rfl

/-! ## Spatial-index statistics -/

/-- The median of a sample as `spatial_index_stats` reports it: a single
value, or an ordered pair of the two distinct middle values. -/
inductive MedianV where
  | single (v : Nat)
  | pair (lo hi : Nat)
  deriving DecidableEq

/-- The statistics record returned by `spatial_index_stats`.  The source
returns the standard deviation itself (`(...) ** 0.5`); the model carries
its square (the variance), which determines it, since a square root has no
exact rational representation -- the claim is about which divisor the
variance uses. -/
structure SIStats where
  avg : Rat
  stdevSq : Rat
  median : MedianV
  min : Nat
  max : Nat
  range : Nat
  data : List Nat
  deriving DecidableEq

/-- Python `min` over a non-empty list (the guard makes the `[]` case
unreachable). -/
def pyMin : List Nat → Nat
  | [] => 0
  | x :: xs => xs.foldl Nat.min x

/-- Python `max` over a non-empty list. -/
def pyMax : List Nat → Nat
  | [] => 0
  | x :: xs => xs.foldl Nat.max x

/-- The function `spatial_index_stats(soup, index)` (the `soup` argument is
unused by the source): per-cell occupancy counts, mean, population standard
deviation, median by the `max_index` parity logic of the source (slice the
two middle values, collapse the two-element set to one number when they are
equal, else report them as a sorted pair), min, max and range.  An empty
index raises `ZeroDivisionError` at the mean. -/
def spatialIndexStats (idx : List (Cell × Finset Nat)) : Except String SIStats :=
  let stats := idx.map (fun p => p.2.card)
  match stats with
  | [] => .error "ZeroDivisionError: division by zero"
  | _ :: _ =>
      let avg : Rat := ((stats.sum : Nat) : Rat) / ((stats.length : Nat) : Rat)
      let sorted := pySorted (fun a b => decide (a ≤ b)) stats
      let maxIndex := stats.length - 1
      let median :=
        if maxIndex % 2 = 0 then MedianV.single (sorted.getD (maxIndex / 2) 0)
        else
          if sorted.getD (maxIndex / 2) 0 = sorted.getD (maxIndex / 2 + 1) 0 then
            MedianV.single (sorted.getD (maxIndex / 2) 0)
          else
            MedianV.pair (sorted.getD (maxIndex / 2) 0) (sorted.getD (maxIndex / 2 + 1) 0)
      .ok { avg := avg,
            stdevSq := (stats.map (fun x => ((x : Rat) - avg) ^ 2)).sum / ((stats.length : Nat) : Rat),
            median := median,
            min := pyMin stats,
            max := pyMax stats,
            range := pyMax stats - pyMin stats,
            data := stats }

/-- Modelled from the spec: the median of the claim -- the single middle
value of the sorted counts for an odd-sized sample; for an even-sized sample
the two middle values, collapsed to one number when equal, else as an
ordered pair. -/
def specMedian (sorted : List Nat) (n : Nat) : MedianV :=
  if n % 2 = 1 then MedianV.single (sorted.getD ((n - 1) / 2) 0)
  else
    if sorted.getD (n / 2 - 1) 0 = sorted.getD (n / 2) 0 then
      MedianV.single (sorted.getD (n / 2 - 1) 0)
    else
      MedianV.pair (sorted.getD (n / 2 - 1) 0) (sorted.getD (n / 2) 0)

/-- Modelled from the spec: mean, population standard deviation (variance
divided by the number of cells, not by one less), min, max, range, and the
median described by the claim, over the per-cell occupancy counts. -/
def specStats (counts : List Nat) : SIStats :=
  { avg := ((counts.sum : Nat) : Rat) / ((counts.length : Nat) : Rat),
    stdevSq := (counts.map
      (fun x => ((x : Rat) - ((counts.sum : Nat) : Rat) / ((counts.length : Nat) : Rat)) ^ 2)).sum /
        ((counts.length : Nat) : Rat),
    median := specMedian (pySorted (fun a b => decide (a ≤ b)) counts) counts.length,
    min := pyMin counts,
    max := pyMax counts,
    range := pyMax counts - pyMin counts,
    data := counts }

theorem median_source_eq_spec (sorted : List Nat) (n : Nat) (hn : 1 ≤ n) :
    (if (n - 1) % 2 = 0 then MedianV.single (sorted.getD ((n - 1) / 2) 0)
     else
       if sorted.getD ((n - 1) / 2) 0 = sorted.getD ((n - 1) / 2 + 1) 0 then
         MedianV.single (sorted.getD ((n - 1) / 2) 0)
       else
         MedianV.pair (sorted.getD ((n - 1) / 2) 0) (sorted.getD ((n - 1) / 2 + 1) 0))
    = specMedian sorted n := by
  unfold specMedian
  rcases Nat.mod_two_eq_zero_or_one n with h | h
  · have h1 : ¬((n - 1) % 2 = 0) := by omega
    have h2 : ¬(n % 2 = 1) := by omega
    have h3 : (n - 1) / 2 = n / 2 - 1 := by omega
    have h4 : (n - 1) / 2 + 1 = n / 2 := by omega
    rw [if_neg h1, if_neg h2, h4, h3]
  · have h1 : (n - 1) % 2 = 0 := by omega
    rw [if_pos h1, if_pos h]

/-- Claim C9 (confirmed): for every non-empty spatial index, the stats are
the mean of the per-cell occupancy counts, the population variance (divided
by the number of cells, not by one less -- the source's standard deviation
is its square root), the minimum, maximum and range, and the median of the
claim: the single middle value for an odd count of cells, and for an even
count the two middle values of the sorted counts collapsed to one number
when equal, else the ordered pair of both. -/
theorem spatial_index_stats_spec (idx : List (Cell × Finset Nat)) (h : idx ≠ []) :
    spatialIndexStats idx = .ok (specStats (idx.map (fun p => p.2.card))) := by
  unfold spatialIndexStats
  cases hidx : idx with
  | nil => exact absurd hidx h
  | cons q qs =>
      simp only [List.map_cons]
      unfold specStats
      rw [← median_source_eq_spec _ _ (by simp [List.length_cons])]

/-- A concrete non-empty spatial index with four cells and occupancy counts
2, 1, 3, 1 (an even-sized sample with distinct middle values 1 and 2). -/
def exampleIdxC9 : List (Cell × Finset Nat) :=
  [((0, 0), {0, 1}), ((1, 0), {0}), ((2, 0), {1, 2, 3}), ((3, 0), {2})]

/-- Witness for claim C9 at a concrete index. -/
theorem spatial_index_stats_spec_witness :
    exampleIdxC9 ≠ []
    ∧ spatialIndexStats exampleIdxC9 =
        .ok (specStats (exampleIdxC9.map (fun p => p.2.card))) :=
  ⟨by unfold exampleIdxC9; exact List.cons_ne_nil _ _,
   spatial_index_stats_spec exampleIdxC9
     (by unfold exampleIdxC9; exact List.cons_ne_nil _ _)⟩
